import Mathlib

/-! Verification of the tank battle simulation engine.

This development shallowly embeds the core of the simulator: the spatial
primitives (Position.h, Direction.h), the per-unit movement-intent state
machine (Tank.h), projectiles, obstacles and traps (Shell.h, Wall.h, Mine.h),
the board state with its queries and clone operation (GameState.h), the
per-tick orchestration pipeline of GameManager.cpp (cooldowns, transitions,
immediate actions, the sub-step movement and collision resolution loop and
end-of-tick cleanup), the observation snapshot matrix, and the pursuit
strategy pieces of ChasingAlgorithm (the getAction prologue and the
breadth-first pathfinding with its path reconstruction).

C++ `int` fields are modelled as `Int`; the C++ `%` operator on `int` is
truncated division, modelled by `Int.tmod`.  Object identity through
`shared_ptr` aliasing is modelled by updating objects in place inside the
single `objects : List GObj` collection, addressed by list index (shells,
walls, mines) or by the unique tank id (tanks), exactly as the manager's
`tanks` map aliases the objects owned by the game state. -/

namespace TankGame


/-- Integer grid coordinate, as in Position.h (`int x`, `int y`). -/
structure Position where
  x : Int
  y : Int
deriving DecidableEq

instance : Inhabited Position := ⟨⟨0, 0⟩⟩

/-- Position::operator+ componentwise addition. -/
def Position.add (p q : Position) : Position := ⟨p.x + q.x, p.y + q.y⟩

/-- The 8 compass directions of Direction.h, enum order UP = 0 .. UP_LEFT = 7. -/
inductive Direction
  | UP
  | UP_RIGHT
  | RIGHT
  | DOWN_RIGHT
  | DOWN
  | DOWN_LEFT
  | LEFT
  | UP_LEFT
deriving DecidableEq

/-- Numeric value of the C++ enum constant. -/
def Direction.idx : Direction → Int
  | .UP => 0
  | .UP_RIGHT => 1
  | .RIGHT => 2
  | .DOWN_RIGHT => 3
  | .DOWN => 4
  | .DOWN_LEFT => 5
  | .LEFT => 6
  | .UP_LEFT => 7

/-- static_cast from an index in [0, 8) back to the enum. -/
def Direction.ofIdx (i : Int) : Direction :=
  if i = 0 then .UP
  else if i = 1 then .UP_RIGHT
  else if i = 2 then .RIGHT
  else if i = 3 then .DOWN_RIGHT
  else if i = 4 then .DOWN
  else if i = 5 then .DOWN_LEFT
  else if i = 6 then .LEFT
  else .UP_LEFT

/-- DirectionUtils::getMovementOffset. -/
def getMovementOffset (dir : Direction) (multiplier : Int) : Position :=
  match dir with
  | .UP => ⟨0, -multiplier⟩
  | .UP_RIGHT => ⟨multiplier, -multiplier⟩
  | .RIGHT => ⟨multiplier, 0⟩
  | .DOWN_RIGHT => ⟨multiplier, multiplier⟩
  | .DOWN => ⟨0, multiplier⟩
  | .DOWN_LEFT => ⟨-multiplier, multiplier⟩
  | .LEFT => ⟨-multiplier, 0⟩
  | .UP_LEFT => ⟨-multiplier, -multiplier⟩

/-- DirectionUtils::rotate; the C++ computes `((idx + steps) % 8 + 8) % 8`
with truncated int `%`, which lands in [0, 8) for every input. -/
def rotateDir (dir : Direction) (steps : Int) : Direction :=
  Direction.ofIdx (Int.tmod (Int.tmod (dir.idx + steps) 8 + 8) 8)

/-- The action vocabulary of common/ActionRequest.h. -/
inductive ActionRequest
  | MoveForward
  | MoveBackward
  | RotateRight45
  | RotateLeft45
  | RotateRight90
  | RotateLeft90
  | Shoot
  | DoNothing
  | GetBattleInfo
deriving DecidableEq

/-- The outcome tags of ActionOutcome.h. -/
inductive ActionOutcome
  | NONE
  | SHOT_INITIATED
  | MOVE_PENDING
  | ROTATED
  | STATE_CHANGED
  | INVALID_ACTION
  | RETURNING_BATTLE_INFO
deriving DecidableEq

/-- The movement-intent states of Tank.h (TankMovementState). -/
inductive TankMovementState
  | INITIAL
  | BWD_1
  | BWD_2
  | MOVING_BWD
deriving DecidableEq

/-- The Tank record of Tank.h.  The C++ leaves `multiplier` uninitialized
until first written; the model starts it at 0, which is never read before
being written on any path that reads it. -/
structure Tank where
  position : Position
  player_id : Int
  tank_id : Nat
  movementState : TankMovementState
  movement_progress : Int
  cannonDirection : Direction
  shells_remaining : Int
  cooldown_remaining : Int
  multiplier : Int
  move_intent_this_step : Bool
  is_destroyed : Bool
deriving DecidableEq

/-- Tank::speed. -/
def tankSpeed : Int := 1

/-- The Tank constructor: initial state, zero progress and cooldown. -/
def mkTank (pos : Position) (pid : Int) (tid : Nat) (initialShells : Int)
    (dir : Direction) : Tank :=
  { position := pos
    player_id := pid
    tank_id := tid
    movementState := .INITIAL
    movement_progress := 0
    cannonDirection := dir
    shells_remaining := initialShells
    cooldown_remaining := 0
    multiplier := 0
    move_intent_this_step := false
    is_destroyed := false }

/-- Tank::rotate: apply a 45-degree-step rotation to the cannon. -/
def Tank.rotateCannon (t : Tank) (steps : Int) : Tank :=
  { t with cannonDirection := rotateDir t.cannonDirection steps }

/-- Tank::transitionMovementState, translated case by case from Tank.h. -/
def transitionMovementState (t0 : Tank) (action : ActionRequest) :
    ActionOutcome × Tank :=
  let t := { t0 with move_intent_this_step := false }
  if action = .GetBattleInfo then (.RETURNING_BATTLE_INFO, t)
  else
    match t0.movementState, action with
    | .INITIAL, .MoveForward =>
        (.MOVE_PENDING, { t with multiplier := 1, move_intent_this_step := true })
    | .INITIAL, .MoveBackward =>
        (.STATE_CHANGED, { t with movementState := .BWD_1 })
    | .INITIAL, .RotateLeft45 => (.ROTATED, t.rotateCannon (-1))
    | .INITIAL, .RotateLeft90 => (.ROTATED, t.rotateCannon (-2))
    | .INITIAL, .RotateRight45 => (.ROTATED, t.rotateCannon 1)
    | .INITIAL, .RotateRight90 => (.ROTATED, t.rotateCannon 2)
    | .INITIAL, .Shoot =>
        if t.shells_remaining > 0 ∧ t.cooldown_remaining = 0 then
          (.SHOT_INITIATED, t)
        else (.INVALID_ACTION, t)
    | .INITIAL, _ => (.NONE, t)
    | .BWD_1, .MoveForward =>
        (.STATE_CHANGED, { t with movementState := .INITIAL })
    | .BWD_1, .RotateLeft45 | .BWD_1, .RotateLeft90 | .BWD_1, .RotateRight45
    | .BWD_1, .RotateRight90 | .BWD_1, .Shoot | .BWD_1, .MoveBackward =>
        (.STATE_CHANGED, { t with movementState := .BWD_2 })
    | .BWD_1, _ => (.NONE, t)
    | .BWD_2, .MoveForward =>
        (.STATE_CHANGED, { t with movementState := .INITIAL })
    | .BWD_2, .RotateLeft45 | .BWD_2, .RotateLeft90 | .BWD_2, .RotateRight45
    | .BWD_2, .RotateRight90 | .BWD_2, .Shoot | .BWD_2, .MoveBackward =>
        (.MOVE_PENDING,
          { t with movementState := .MOVING_BWD, multiplier := -1,
                   move_intent_this_step := true })
    | .BWD_2, _ => (.NONE, t)
    | .MOVING_BWD, .MoveForward =>
        (.MOVE_PENDING,
          { t with movementState := .INITIAL, multiplier := 1,
                   move_intent_this_step := true })
    | .MOVING_BWD, .RotateLeft45 =>
        (.ROTATED, Tank.rotateCannon { t with movementState := .INITIAL } (-1))
    | .MOVING_BWD, .RotateLeft90 =>
        (.ROTATED, Tank.rotateCannon { t with movementState := .INITIAL } (-2))
    | .MOVING_BWD, .RotateRight45 =>
        (.ROTATED, Tank.rotateCannon { t with movementState := .INITIAL } 1)
    | .MOVING_BWD, .RotateRight90 =>
        (.ROTATED, Tank.rotateCannon { t with movementState := .INITIAL } 2)
    | .MOVING_BWD, .Shoot =>
        let t1 := { t with movementState := .INITIAL }
        if t1.shells_remaining > 0 ∧ t1.cooldown_remaining = 0 then
          (.SHOT_INITIATED, t1)
        else (.INVALID_ACTION, t1)
    | .MOVING_BWD, .MoveBackward =>
        (.MOVE_PENDING, { t with multiplier := -1, move_intent_this_step := true })
    | .MOVING_BWD, _ => (.NONE, t)

/-- Tank::updateMovementProgress.  Returns the intended position for this
sub-step together with the updated tank (progress accumulation). -/
def updateMovementProgress (t0 : Tank) (max_speed board_width board_height : Int) :
    Position × Tank :=
  if !t0.move_intent_this_step then
    (t0.position, { t0 with movement_progress := 0 })
  else
    let t := { t0 with movement_progress := t0.movement_progress + tankSpeed }
    if t.movement_progress ≥ max_speed then
      let offset := getMovementOffset t.cannonDirection t.multiplier
      let ix := Int.tmod (t.position.x + offset.x + board_width) board_width
      let iy := Int.tmod (t.position.y + offset.y + board_height) board_height
      (⟨ix, iy⟩, { t with movement_progress := t.movement_progress - max_speed })
    else (t.position, t)

/-- The Shell record of Shell.h. -/
structure Shell where
  position : Position
  direction : Direction
  movement_progress : Int
  is_destroyed : Bool
deriving DecidableEq

/-- Shell::speed. -/
def shellSpeed : Int := 2

/-- The Shell constructor. -/
def mkShell (pos : Position) (dir : Direction) : Shell :=
  { position := pos, direction := dir, movement_progress := 0, is_destroyed := false }

/-- Tank::shoot: consume ammo and start the cooldown when allowed, spawning a
shell at the current position with the cannon direction; otherwise no change. -/
def Tank.shoot (t : Tank) : Option Shell × Tank :=
  if t.shells_remaining > 0 ∧ t.cooldown_remaining = 0 then
    (some (mkShell t.position t.cannonDirection),
      { t with shells_remaining := t.shells_remaining - 1, cooldown_remaining := 4 })
  else (none, t)

/-- Tank::decrementCooldown. -/
def decrementCooldown (t : Tank) : Tank :=
  if t.cooldown_remaining > 0 then
    { t with cooldown_remaining := t.cooldown_remaining - 1 }
  else t

/-- The Wall record of Wall.h. -/
structure Wall where
  position : Position
  health : Int
  is_destroyed : Bool
deriving DecidableEq

/-- The Wall constructor: health starts at 2. -/
def mkWall (pos : Position) : Wall :=
  { position := pos, health := 2, is_destroyed := false }

/-- Wall::takeDamage: decrement health, set destroyed at health ≤ 0; the
returned flag tells whether this hit destroyed the wall. -/
def Wall.takeDamage (w0 : Wall) : Bool × Wall :=
  let w := { w0 with health := w0.health - 1 }
  if w.health ≤ 0 then (true, { w with is_destroyed := true }) else (false, w)

/-- The Mine record of Mine.h. -/
structure Mine where
  position : Position
  is_destroyed : Bool
deriving DecidableEq

/-- The Mine constructor. -/
def mkMine (pos : Position) : Mine :=
  { position := pos, is_destroyed := false }

/-- The closed set of world-object kinds held by GameState::objects
(GameObject subclasses TANK, SHELL, WALL, MINE). -/
inductive GObj
  | tank (t : Tank)
  | shell (s : Shell)
  | wall (w : Wall)
  | mine (m : Mine)
deriving DecidableEq

/-- GameObject::position. -/
def GObj.position : GObj → Position
  | .tank t => t.position
  | .shell s => s.position
  | .wall w => w.position
  | .mine m => m.position

/-- GameObject::is_destroyed. -/
def GObj.is_destroyed : GObj → Bool
  | .tank t => t.is_destroyed
  | .shell s => s.is_destroyed
  | .wall w => w.is_destroyed
  | .mine m => m.is_destroyed

/-- GameObject::symbol, fixed at construction: a tank renders the digit of
its owning player, a shell renders an asterisk, a wall a hash, a mine an at
sign. -/
def GObj.symbol : GObj → Char
  | .tank t => if t.player_id = 1 then '1' else '2'
  | .shell _ => '*'
  | .wall _ => '#'
  | .mine _ => '@'

/-- GameObject::render: a blank for destroyed objects, else the symbol. -/
def GObj.render (o : GObj) : Char :=
  if o.is_destroyed then ' ' else o.symbol

/-- The GameState record of GameState.h: immutable board dimensions plus the
single mutable collection of all world objects. -/
structure GameState where
  board_width : Int
  board_height : Int
  objects : List GObj
deriving DecidableEq

/-- GameState::getObjectAt: the first non-destroyed object at the position,
in collection order. -/
def GameState.getObjectAt (g : GameState) (pos : Position) : Option GObj :=
  g.objects.find? (fun o => !o.is_destroyed && decide (o.position = pos))

/-- GameState::getWallAt: getObjectAt followed by a type check, so a wall is
found only when the first live object at the cell is the wall. -/
def GameState.getWallAt (g : GameState) (pos : Position) : Option Wall :=
  match g.getObjectAt pos with
  | some (.wall w) => some w
  | _ => none

/-- GameState::getMineAt: getObjectAt followed by a type check. -/
def GameState.getMineAt (g : GameState) (pos : Position) : Option Mine :=
  match g.getObjectAt pos with
  | some (.mine m) => some m
  | _ => none

/-- Loop body of GameState::clone: destroyed objects are skipped; a cloned
tank is rebuilt through the Tank constructor (fresh id from the static
counter, Ready state, zero progress, no intent) and then given the original
ammo and cooldown; shells are rebuilt with zero progress; walls are rebuilt
at full health; mines are rebuilt live. -/
def cloneObjects : List GObj → Nat → List GObj
  | [], _ => []
  | o :: rest, ctr =>
    if o.is_destroyed then cloneObjects rest ctr
    else
      match o with
      | .tank t =>
          .tank { mkTank t.position t.player_id ctr 0 t.cannonDirection with
                    shells_remaining := t.shells_remaining,
                    cooldown_remaining := t.cooldown_remaining }
            :: cloneObjects rest (ctr + 1)
      | .shell s => .shell (mkShell s.position s.direction) :: cloneObjects rest ctr
      | .wall w => .wall (mkWall w.position) :: cloneObjects rest ctr
      | .mine m => .mine (mkMine m.position) :: cloneObjects rest ctr

/-- GameState::clone.  The fresh-tank-id counter (the C++ static
Tank::next_tank_id) is passed explicitly. -/
def GameState.clone (g : GameState) (ctr : Nat) : GameState :=
  { board_width := g.board_width
    board_height := g.board_height
    objects := cloneObjects g.objects ctr }

/-! ### The observation snapshot matrix of executeImmediateActions -/

/-- The snapshot matrix, modelled as a total function from cells to the
character stored there (the C++ vector-of-vector is only ever indexed at
object positions, which are in bounds). -/
def Mat : Type := Position → Char

/-- Store one character at one cell. -/
def writeCell (m : Mat) (p : Position) (c : Char) : Mat :=
  fun q => if q = p then c else m q

/-- First drawing pass: every non-destroyed object writes its render
character at its position, in collection order (later objects overwrite). -/
def drawObjects : List GObj → Mat → Mat
  | [], m => m
  | o :: rest, m =>
      drawObjects rest (if o.is_destroyed then m else writeCell m o.position o.render)

/-- Second drawing pass: every non-destroyed shell writes its render
character again, so shells obstruct everything else at their cell. -/
def drawShells : List GObj → Mat → Mat
  | [], m => m
  | o :: rest, m =>
      drawShells rest
        (match o with
         | .shell s => if s.is_destroyed then m else writeCell m o.position o.render
         | _ => m)

/-- The board matrix built at the start of executeImmediateActions: blanks,
then all live objects, then all live shells again. -/
def buildBoardMatrix (g : GameState) : Mat :=
  drawShells g.objects (drawObjects g.objects (fun _ => ' '))

/-- The satellite view handed to the requesting tank: the board matrix with
the self marker written over the requesting tank's own cell. -/
def satelliteViewFor (m : Mat) (t : Tank) : Mat :=
  writeCell m t.position '%'

/-- The matrix as left behind after serving the request: the tank's own
render character is written back over its cell. -/
def matrixAfterInfoRequest (m : Mat) (t : Tank) : Mat :=
  writeCell (satelliteViewFor m t) t.position (GObj.render (.tank t))

/-! ### The per-tick orchestration pipeline of GameManager.cpp

The manager's `tanks` map holds aliases of the tank objects owned by
`state->objects`; tank mutations are modelled by rewriting the tank with the
matching id inside the object list.  Shells are addressed by their index in
the object list.  The logging side channel (`LoggedAction`) is carried
because the claims speak about per-unit reported outcomes; the manager-level
bookkeeping (`game_over`, winners, shell-depletion counters) and the file
writers touch no board state and are outside the embedded step. -/

/-- The LoggedAction record (per-unit outcome report). -/
structure LoggedAction where
  player_id : Int
  tank_id : Nat
  action : ActionRequest
  is_bad : Bool
  was_tank_destroyed : Bool
  killed_this_step : Bool
deriving DecidableEq

/-- Default-constructed LoggedAction (player id 0 means unset). -/
def defaultLogged : LoggedAction :=
  { player_id := 0, tank_id := 0, action := .DoNothing, is_bad := false,
    was_tank_destroyed := false, killed_this_step := false }

/-- The TankStepData record: per-tank scratch data for one tick.  The C++
record holds a pointer to the tank; the model holds the tank id and looks
the tank up in the game state. -/
structure TankStepData where
  tank_id : Nat
  action : ActionRequest
  outcome : ActionOutcome
  intended_position : Position
  blocked_this_sub_step : Bool
  logged_action : LoggedAction
deriving DecidableEq

/-- Matcher for a tank object carrying a given id. -/
def tankIdMatcher (tid : Nat) (o : GObj) : Option Tank :=
  match o with
  | .tank t => if t.tank_id = tid then some t else none
  | _ => none

/-- Dereference a tank alias: the first tank object carrying this id. -/
def GameState.getTankById (g : GameState) (tid : Nat) : Option Tank :=
  g.objects.findSome? (tankIdMatcher tid)

/-- Pointwise update of the tank objects carrying a given id. -/
def updTankObj (tid : Nat) (f : Tank → Tank) (o : GObj) : GObj :=
  match o with
  | .tank t => if t.tank_id = tid then .tank (f t) else .tank t
  | o => o

/-- Write through a tank alias: rewrite the tank objects carrying this id. -/
def GameState.updTank (g : GameState) (tid : Nat) (f : Tank → Tank) : GameState :=
  { g with objects := g.objects.map (updTankObj tid f) }

/-- Replace the object at one index of the collection. -/
def GameState.setObj (g : GameState) (i : Nat) (o : GObj) : GameState :=
  { g with objects := g.objects.set i o }

/-- GameManager::prepareStep: decrement every tank's cooldown, then build
the per-tank step data (intended position initialized to the current
position, the logged action primed with the player and tank ids, and dead
tanks pre-marked as already destroyed with a DoNothing action).  `order` is
the manager's tank-map iteration order over tank ids. -/
def prepareStep (g0 : GameState) (order : List Nat) :
    GameState × List TankStepData :=
  let g : GameState :=
    { g0 with
      objects := g0.objects.map (fun o =>
        match o with
        | .tank t => .tank (decrementCooldown t)
        | o => o) }
  (g, order.filterMap (fun tid =>
    match g.getTankById tid with
    | none => none
    | some t =>
        some { tank_id := tid
               action := .DoNothing
               outcome := .NONE
               intended_position := t.position
               blocked_this_sub_step := false
               logged_action :=
                 if t.is_destroyed then
                   { defaultLogged with
                       player_id := t.player_id, tank_id := tid,
                       was_tank_destroyed := true, killed_this_step := false,
                       action := .DoNothing }
                 else
                   { defaultLogged with player_id := t.player_id, tank_id := tid } }))

/-- GameManager::getPlayerActions: live tanks are given their strategy's
chosen action, dead tanks get DoNothing.  The strategies themselves are
abstracted into the `acts` input (one polled action per tank id). -/
def getPlayerActions (g : GameState) (td : List TankStepData)
    (acts : Nat → ActionRequest) : List TankStepData :=
  td.map (fun d =>
    match g.getTankById d.tank_id with
    | some t =>
        if !t.is_destroyed then { d with action := acts d.tank_id }
        else { d with action := .DoNothing }
    | none => { d with action := .DoNothing })

/-- GameManager::processTankTransitions: run the movement state machine of
each live tank on its action, in tank-data order. -/
def processTankTransitions (g : GameState) :
    List TankStepData → GameState × List TankStepData
  | [] => (g, [])
  | d :: rest =>
    match g.getTankById d.tank_id with
    | some t =>
        if !t.is_destroyed then
          let r := transitionMovementState t d.action
          let g1 := g.updTank d.tank_id (fun _ => r.2)
          let s := processTankTransitions g1 rest
          (s.1, { d with outcome := r.1 } :: s.2)
        else
          let s := processTankTransitions g rest
          (s.1, { d with outcome := .NONE } :: s.2)
    | none =>
        let s := processTankTransitions g rest
        (s.1, { d with outcome := .NONE } :: s.2)

/-- GameManager::executeImmediateActions: execute shots (spawning shells at
the end of the object list) and fill in the logged action per outcome.  The
satellite-view branch only feeds the abstracted strategies and rewrites a
local matrix, so it leaves the game state untouched apart from its log
entry; `buildBoardMatrix`, `satelliteViewFor` and `matrixAfterInfoRequest`
model that matrix separately. -/
def executeImmediateActions (g : GameState) :
    List TankStepData → GameState × List TankStepData
  | [] => (g, [])
  | d :: rest =>
    match g.getTankById d.tank_id with
    | none =>
        let s := executeImmediateActions g rest
        (s.1, d :: s.2)
    | some t =>
        if d.outcome = .SHOT_INITIATED then
          let r := t.shoot
          let g1 := (g.updTank d.tank_id (fun _ => r.2))
          let g2 :=
            match r.1 with
            | some sh => { g1 with objects := g1.objects ++ [.shell sh] }
            | none => g1
          let lg : LoggedAction :=
            { player_id := t.player_id, tank_id := d.tank_id, action := .Shoot,
              is_bad := r.1.isNone, was_tank_destroyed := t.is_destroyed,
              killed_this_step := false }
          let s := executeImmediateActions g2 rest
          (s.1, { d with logged_action := lg } :: s.2)
        else if d.action = .Shoot ∧ d.outcome = .INVALID_ACTION then
          let lg : LoggedAction :=
            { player_id := t.player_id, tank_id := d.tank_id, action := .Shoot,
              is_bad := true, was_tank_destroyed := t.is_destroyed,
              killed_this_step := false }
          let s := executeImmediateActions g rest
          (s.1, { d with logged_action := lg } :: s.2)
        else if d.outcome = .ROTATED then
          let lg : LoggedAction :=
            { player_id := t.player_id, tank_id := d.tank_id, action := d.action,
              is_bad := false, was_tank_destroyed := t.is_destroyed,
              killed_this_step := false }
          let s := executeImmediateActions g rest
          (s.1, { d with logged_action := lg } :: s.2)
        else if d.outcome = .INVALID_ACTION then
          let lg : LoggedAction :=
            { player_id := t.player_id, tank_id := d.tank_id, action := d.action,
              is_bad := true, was_tank_destroyed := t.is_destroyed,
              killed_this_step := false }
          let s := executeImmediateActions g rest
          (s.1, { d with logged_action := lg } :: s.2)
        else if d.outcome = .MOVE_PENDING ∨ d.outcome = .STATE_CHANGED then
          let lg : LoggedAction :=
            { player_id := t.player_id, tank_id := d.tank_id, action := d.action,
              is_bad := false, was_tank_destroyed := t.is_destroyed,
              killed_this_step := false }
          let s := executeImmediateActions g rest
          (s.1, { d with logged_action := lg } :: s.2)
        else if d.outcome = .RETURNING_BATTLE_INFO then
          let lg : LoggedAction :=
            { player_id := t.player_id, tank_id := d.tank_id,
              action := .GetBattleInfo, is_bad := false,
              was_tank_destroyed := t.is_destroyed, killed_this_step := false }
          let s := executeImmediateActions g rest
          (s.1, { d with logged_action := lg } :: s.2)
        else
          let s := executeImmediateActions g rest
          (s.1, d :: s.2)

/-! ### Sub-step movement and collision resolution -/

/-- Positions of the non-destroyed walls, gathered once per sub-step at the
top of resolveCollisionsSubStep. -/
def wallPositions (g : GameState) : List Position :=
  g.objects.filterMap (fun o =>
    match o with
    | .wall w => if w.is_destroyed then none else some w.position
    | _ => none)

/-- Positions of the non-destroyed mines, gathered once per sub-step. -/
def minePositions (g : GameState) : List Position :=
  g.objects.filterMap (fun o =>
    match o with
    | .mine m => if m.is_destroyed then none else some m.position
    | _ => none)

/-- Second loop of GameManager::calculateIntendedTankPositionsSubStep:
accumulate movement progress of the tanks with a movement intent (mutating
their progress) and record their intended positions. -/
def calcIntendedTanks (g : GameState) (max_speed : Int) :
    List TankStepData → GameState × List TankStepData
  | [] => (g, [])
  | d :: rest =>
    match g.getTankById d.tank_id with
    | some t =>
        if t.move_intent_this_step then
          let r := updateMovementProgress t max_speed g.board_width g.board_height
          let g1 := g.updTank d.tank_id (fun _ => r.2)
          let s := calcIntendedTanks g1 max_speed rest
          (s.1, { d with intended_position := r.1 } :: s.2)
        else
          let s := calcIntendedTanks g max_speed rest
          (s.1, d :: s.2)
    | none =>
        let s := calcIntendedTanks g max_speed rest
        (s.1, d :: s.2)

/-- GameManager::calculateIntendedTankPositionsSubStep: first reset every
intended position to the current position, then accumulate progress for the
tanks with a movement intent. -/
def calculateIntendedTankPositionsSubStep (g : GameState)
    (td : List TankStepData) (max_speed : Int) : GameState × List TankStepData :=
  let td1 := td.map (fun d =>
    match g.getTankById d.tank_id with
    | some t => { d with intended_position := t.position }
    | none => d)
  calcIntendedTanks g max_speed td1

/-- GameManager::calculateShellIntendedPositionsSubStep: every live shell
accumulates its speed; when the accumulator reaches the sub-step quantum the
shell intends to advance one wrapped cell and the quantum is consumed.  The
returned pairs associate the shell's object index with its intended
position, in collection order. -/
def calcIntendedShells (g : GameState) (max_speed : Int) :
    List Nat → GameState × List (Nat × Position)
  | [] => (g, [])
  | i :: rest =>
    match g.objects[i]? with
    | some (.shell sh) =>
        if !sh.is_destroyed then
          let s1 := { sh with movement_progress := sh.movement_progress + shellSpeed }
          if s1.movement_progress ≥ max_speed then
            let offset := getMovementOffset s1.direction 1
            let ix := Int.tmod (s1.position.x + offset.x + g.board_width) g.board_width
            let iy := Int.tmod (s1.position.y + offset.y + g.board_height) g.board_height
            let s2 := { s1 with movement_progress := s1.movement_progress - max_speed }
            let r := calcIntendedShells (g.setObj i (.shell s2)) max_speed rest
            (r.1, (i, ⟨ix, iy⟩) :: r.2)
          else
            let r := calcIntendedShells (g.setObj i (.shell s1)) max_speed rest
            (r.1, (i, s1.position) :: r.2)
        else
          calcIntendedShells g max_speed rest
    | _ => calcIntendedShells g max_speed rest

/-- Intended shell positions for one sub-step, over the whole collection. -/
def calculateShellIntendedPositionsSubStep (g : GameState) (max_speed : Int) :
    GameState × List (Nat × Position) :=
  calcIntendedShells g max_speed (List.range g.objects.length)

/-- Index of the first non-destroyed object at a position: the model of
dereferencing GameState::getObjectAt for in-place mutation. -/
def GameState.getObjectIdxAt (g : GameState) (pos : Position) : Option Nat :=
  (List.range g.objects.length).find? (fun i =>
    match g.objects[i]? with
    | some o => !o.is_destroyed && decide (o.position = pos)
    | none => false)

/-- GameManager::resolveShellWallCollisions: each live shell whose intended
position carries a live wall damages that wall (when getWallAt still finds
it live) and is itself destroyed, whether or not the wall died. -/
def resolveShellWallCollisions (g : GameState) (wallPos : List Position) :
    List (Nat × Position) → GameState
  | [] => g
  | (i, pos) :: rest =>
    match g.objects[i]? with
    | some (.shell sh) =>
        if !sh.is_destroyed ∧ pos ∈ wallPos then
          match g.getObjectIdxAt pos with
          | some j =>
              match g.objects[j]? with
              | some (.wall w) =>
                  if !w.is_destroyed then
                    let g1 := g.setObj j (.wall (w.takeDamage).2)
                    let g2 := g1.setObj i (.shell { sh with is_destroyed := true })
                    resolveShellWallCollisions g2 wallPos rest
                  else resolveShellWallCollisions g wallPos rest
              | _ => resolveShellWallCollisions g wallPos rest
          | none => resolveShellWallCollisions g wallPos rest
        else resolveShellWallCollisions g wallPos rest
    | _ => resolveShellWallCollisions g wallPos rest

/-- GameManager::resolveTankWallCollisions: a tank with a movement intent
whose intended position differs from its current one and lands on a wall
cell is blocked: intended position reverts, progress resets, the intent is
cancelled for the rest of the tick. -/
def resolveTankWallCollisions (g : GameState) (wallPos : List Position) :
    List TankStepData → GameState × List TankStepData
  | [] => (g, [])
  | d :: rest =>
    match g.getTankById d.tank_id with
    | some t =>
        if t.move_intent_this_step ∧ d.intended_position ≠ t.position ∧
            d.intended_position ∈ wallPos then
          let g1 := g.updTank d.tank_id (fun t1 =>
            { t1 with movement_progress := 0, move_intent_this_step := false })
          let s := resolveTankWallCollisions g1 wallPos rest
          (s.1, { d with blocked_this_sub_step := true,
                         intended_position := t.position } :: s.2)
        else
          let s := resolveTankWallCollisions g wallPos rest
          (s.1, d :: s.2)
    | none =>
        let s := resolveTankWallCollisions g wallPos rest
        (s.1, d :: s.2)

/-- Whether the object at an index is a live shell. -/
def GameState.isLiveShellIdx (g : GameState) (i : Nat) : Bool :=
  match g.objects[i]? with
  | some (.shell sh) => !sh.is_destroyed
  | _ => false

/-- Position of the shell at an index (junk when the index is not a shell;
only used under isLiveShellIdx). -/
def GameState.shellPosIdx (g : GameState) (i : Nat) : Position :=
  match g.objects[i]? with
  | some (.shell sh) => sh.position
  | _ => ⟨0, 0⟩

/-- Direction of the shell at an index. -/
def GameState.shellDirIdx (g : GameState) (i : Nat) : Direction :=
  match g.objects[i]? with
  | some (.shell sh) => sh.direction
  | _ => .UP

/-- Mark the shell at an index destroyed. -/
def GameState.destroyShellIdx (g : GameState) (i : Nat) : GameState :=
  match g.objects[i]? with
  | some (.shell sh) => g.setObj i (.shell { sh with is_destroyed := true })
  | _ => g

/-- The C++ opposite-direction test
`abs(static_cast of dir1 - static_cast of dir2) == 4`. -/
def oppositeDirs (d1 d2 : Direction) : Bool :=
  (d1.idx - d2.idx).natAbs = 4

/-- First phase of GameManager::resolveShellShellCollisions: group the live
shells by intended position and destroy every member of each group of two or
more.  The grouping map is filled from the pre-phase destroyed flags, so the
phase destroys exactly the live shells sharing an intended cell with another
live shell. -/
def shellShellPhase1 (g0 g : GameState) (si : List (Nat × Position)) :
    List (Nat × Position) → GameState
  | [] => g
  | (i, pos) :: rest =>
    if g0.isLiveShellIdx i ∧
        si.any (fun jp =>
          jp.1 ≠ i && g0.isLiveShellIdx jp.1 && decide (jp.2 = pos)) then
      shellShellPhase1 g0 (g.destroyShellIdx i) si rest
    else shellShellPhase1 g0 g si rest

/-- Inner loop of the head-on phase: with `k` the shell whose current cell is
examined (its position captured on entry), destroy `k` and every other live
shell whose intended position equals that cell while travelling in the
exactly opposite direction. -/
def shellShellHeadOnInner (k : Nat) (kpos : Position) (kdir : Direction)
    (g : GameState) : List (Nat × Position) → GameState
  | [] => g
  | (j, jpos) :: rest =>
    if g.isLiveShellIdx j ∧ jpos = kpos ∧ j ≠ k ∧
        oppositeDirs kdir (g.shellDirIdx j) then
      shellShellHeadOnInner k kpos kdir
        ((g.destroyShellIdx k).destroyShellIdx j) rest
    else shellShellHeadOnInner k kpos kdir g rest

/-- Second phase of GameManager::resolveShellShellCollisions: iterate the
shells still live in collection order; each surviving shell collides head-on
with the moving shells that intend to land on its current cell from the
opposite direction. -/
def shellShellPhase2 (g : GameState) (si : List (Nat × Position)) :
    List Nat → GameState
  | [] => g
  | k :: rest =>
    if g.isLiveShellIdx k then
      shellShellPhase2
        (shellShellHeadOnInner k (g.shellPosIdx k) (g.shellDirIdx k) g si) si rest
    else shellShellPhase2 g si rest

/-- GameManager::resolveShellShellCollisions: the coincident-intended phase
followed by the head-on phase. -/
def resolveShellShellCollisions (g : GameState) (si : List (Nat × Position)) :
    GameState :=
  shellShellPhase2 (shellShellPhase1 g g si si) si (si.map Prod.fst)

/-- Destroy a tank and set its killed-this-step report flags, guarded so an
already-destroyed tank is left untouched (the shared guard of the shell,
mine and tank collision resolvers). -/
def destroyTankWithFlag (g : GameState) (td : List TankStepData) (tid : Nat) :
    GameState × List TankStepData :=
  match g.getTankById tid with
  | some t =>
      if !t.is_destroyed then
        (g.updTank tid (fun t1 => { t1 with is_destroyed := true }),
         td.map (fun d =>
           if d.tank_id = tid then
             { d with logged_action :=
                 { d.logged_action with was_tank_destroyed := true,
                                        killed_this_step := true } }
           else d))
      else (g, td)
  | none => (g, td)

/-- The hit test of resolveShellTankCollisions against one tank snapshot
entry (tank id, effective position, current position): a direct hit when the
shell's intended position equals the tank's effective position, or a
pass-through when the shell's intended position equals the tank's current
position while the shell's current position equals the tank's effective
position. -/
def shellHitsTank (ipos cpos : Position) (e : Nat × Position × Position) : Bool :=
  decide (ipos = e.2.1) || (decide (ipos = e.2.2) && decide (cpos = e.2.1))

/-- Shell loop of GameManager::resolveShellTankCollisions: each live shell
finds the first tank snapshot entry it hits (one shell destroys at most one
tank), the tank is destroyed with its report flags, and the shell is
remembered for destruction after the loop. -/
def resolveShellTankLoop (g : GameState) (td : List TankStepData)
    (eff : List (Nat × Position × Position)) :
    List (Nat × Position) → GameState × List TankStepData × List Nat
  | [] => (g, td, [])
  | (i, ipos) :: rest =>
    if g.isLiveShellIdx i then
      match eff.find? (shellHitsTank ipos (g.shellPosIdx i)) with
      | some e =>
          let r1 := destroyTankWithFlag g td e.1
          let r := resolveShellTankLoop r1.1 r1.2 eff rest
          (r.1, r.2.1, i :: r.2.2)
      | none => resolveShellTankLoop g td eff rest
    else resolveShellTankLoop g td eff rest

/-- GameManager::resolveShellTankCollisions: snapshot the live tanks with
their effective positions (current position when blocked, else intended),
run the shell loop, then destroy the shells that hit tanks. -/
def resolveShellTankCollisions (g : GameState) (td : List TankStepData)
    (si : List (Nat × Position)) : GameState × List TankStepData :=
  let eff : List (Nat × Position × Position) := td.filterMap (fun d =>
    match g.getTankById d.tank_id with
    | some t =>
        if !t.is_destroyed then
          some (d.tank_id,
                (if d.blocked_this_sub_step then t.position else d.intended_position),
                t.position)
        else none
    | none => none)
  let r := resolveShellTankLoop g td eff si
  (r.2.2.foldl (fun g1 i => g1.destroyShellIdx i) r.1, r.2.1)

/-- Loop of GameManager::resolveTankMineCollisions over the effective
positions of the live tanks: a live mine at an effective position destroys
both the tank (with report flags) and the mine. -/
def resolveTankMineLoop (g : GameState) (td : List TankStepData)
    (minePos : List Position) :
    List (Nat × Position) → GameState × List TankStepData
  | [] => (g, td)
  | (tid, epos) :: rest =>
    if epos ∈ minePos then
      match g.getObjectIdxAt epos with
      | some j =>
          match g.objects[j]? with
          | some (.mine m) =>
              if !m.is_destroyed then
                let r1 := destroyTankWithFlag g td tid
                let g2 := r1.1.setObj j (.mine { m with is_destroyed := true })
                resolveTankMineLoop g2 r1.2 minePos rest
              else resolveTankMineLoop g td minePos rest
          | _ => resolveTankMineLoop g td minePos rest
      | none => resolveTankMineLoop g td minePos rest
    else resolveTankMineLoop g td minePos rest

/-- GameManager::resolveTankMineCollisions. -/
def resolveTankMineCollisions (g : GameState) (td : List TankStepData)
    (minePos : List Position) : GameState × List TankStepData :=
  let eff : List (Nat × Position) := td.filterMap (fun d =>
    match g.getTankById d.tank_id with
    | some t =>
        if !t.is_destroyed then
          some (d.tank_id,
                if d.blocked_this_sub_step then t.position else d.intended_position)
        else none
    | none => none)
  resolveTankMineLoop g td minePos eff

/-- Pair collection of GameManager::resolveTankTankCollisions over the live
tank snapshots (tank id, effective position, current position, moved flag):
two tanks collide when their effective positions coincide and at least one
actually moved there, or both already share their current cell. -/
def collidingPairs : List (Nat × Position × Position × Bool) → List (Nat × Nat)
  | [] => []
  | a :: rest =>
      rest.filterMap (fun b =>
        if a.2.1 = b.2.1 ∧ (a.2.2.2 ∨ b.2.2.2 ∨ a.2.2.1 = b.2.2.1) then
          some (a.1, b.1)
        else none)
      ++ collidingPairs rest

/-- GameManager::resolveTankTankCollisions: collect the colliding pairs from
the snapshots, then destroy both members of every pair. -/
def resolveTankTankCollisions (g : GameState) (td : List TankStepData) :
    GameState × List TankStepData :=
  let infos : List (Nat × Position × Position × Bool) := td.filterMap (fun d =>
    match g.getTankById d.tank_id with
    | some t =>
        if !t.is_destroyed then
          some (d.tank_id,
                (if d.blocked_this_sub_step then t.position else d.intended_position),
                t.position,
                (!d.blocked_this_sub_step && decide (d.intended_position ≠ t.position)))
        else none
    | none => none)
  (collidingPairs infos).foldl (fun acc pr =>
    let r1 := destroyTankWithFlag acc.1 acc.2 pr.1
    destroyTankWithFlag r1.1 r1.2 pr.2) (g, td)

/-- Tank half of GameManager::updateObjectPositionsSubStep: unblocked live
tanks take their intended position (logging a successful move when the cell
changed); blocked tanks keep their position and log the rejected move when
it was not already logged. -/
def updateTankPositions (g : GameState) :
    List TankStepData → GameState × List TankStepData
  | [] => (g, [])
  | d :: rest =>
    match g.getTankById d.tank_id with
    | some t =>
        if !t.is_destroyed ∧ ¬d.blocked_this_sub_step then
          let d1 :=
            if t.position ≠ d.intended_position then
              { d with logged_action :=
                  { player_id := t.player_id, tank_id := d.tank_id,
                    action := (if t.multiplier > 0 then ActionRequest.MoveForward
                               else ActionRequest.MoveBackward),
                    is_bad := false, was_tank_destroyed := t.is_destroyed,
                    killed_this_step := false } }
            else d
          let g1 := g.updTank d.tank_id (fun t1 =>
            { t1 with position := d.intended_position })
          let s := updateTankPositions g1 rest
          (s.1, d1 :: s.2)
        else if d.blocked_this_sub_step then
          let d1 :=
            if d.logged_action.player_id = 0 ∨ d.logged_action.action ≠ d.action then
              { d with logged_action :=
                  { player_id := t.player_id, tank_id := d.tank_id,
                    action := d.action, is_bad := true,
                    was_tank_destroyed := t.is_destroyed,
                    killed_this_step := false } }
            else d
          let s := updateTankPositions g rest
          (s.1, d1 :: s.2)
        else
          let s := updateTankPositions g rest
          (s.1, d :: s.2)
    | none =>
        let s := updateTankPositions g rest
        (s.1, d :: s.2)

/-- Shell half of GameManager::updateObjectPositionsSubStep: surviving
shells take their intended positions. -/
def updateShellPositions (g : GameState) : List (Nat × Position) → GameState
  | [] => g
  | (i, ipos) :: rest =>
    match g.objects[i]? with
    | some (.shell sh) =>
        if !sh.is_destroyed then
          updateShellPositions (g.setObj i (.shell { sh with position := ipos })) rest
        else updateShellPositions g rest
    | _ => updateShellPositions g rest

/-- GameManager::updateObjectPositionsSubStep. -/
def updateObjectPositionsSubStep (g : GameState) (td : List TankStepData)
    (si : List (Nat × Position)) : GameState × List TankStepData :=
  let r := updateTankPositions g td
  (updateShellPositions r.1 si, r.2)

/-- GameManager::resolveCollisionsSubStep: gather the live wall and mine
cells once, then run the six resolvers in their fixed precedence order. -/
def resolveCollisionsSubStep (g : GameState) (td : List TankStepData)
    (si : List (Nat × Position)) : GameState × List TankStepData :=
  let wp := wallPositions g
  let mp := minePositions g
  let g1 := resolveShellWallCollisions g wp si
  let r2 := resolveTankWallCollisions g1 wp td
  let g3 := resolveShellShellCollisions r2.1 si
  let r4 := resolveShellTankCollisions g3 r2.2 si
  let r5 := resolveTankMineCollisions r4.1 r4.2 mp
  resolveTankTankCollisions r5.1 r5.2

/-- The early-exit test of the sub-step loop: some tank is still alive. -/
def anyTankAlive (g : GameState) (td : List TankStepData) : Bool :=
  td.any (fun d =>
    match g.getTankById d.tank_id with
    | some t => !t.is_destroyed
    | none => false)

/-- Body of the sub-step loop of runMovementAndCollisionSubSteps, iterated
`max_speed` times with the all-tanks-destroyed early exit. -/
def subSteps (max_speed : Int) :
    Nat → GameState × List TankStepData → GameState × List TankStepData
  | 0, s => s
  | n + 1, s =>
    let td0 := s.2.map (fun d => { d with blocked_this_sub_step := false })
    let r1 := calculateIntendedTankPositionsSubStep s.1 td0 max_speed
    let r2 := calculateShellIntendedPositionsSubStep r1.1 max_speed
    let r3 := resolveCollisionsSubStep r2.1 r1.2 r2.2
    let r4 := updateObjectPositionsSubStep r3.1 r3.2 r2.2
    if anyTankAlive r4.1 r4.2 then subSteps max_speed n r4 else r4

/-- GameManager::runMovementAndCollisionSubSteps: the sub-step quantum is
the highest speed among the present tanks and the live shells; nothing runs
when no object can move. -/
def runMovementAndCollisionSubSteps (g : GameState) (td : List TankStepData) :
    GameState × List TankStepData :=
  let ms1 : Int :=
    if td.any (fun d => (g.getTankById d.tank_id).isSome) then tankSpeed else 0
  let shells_exist := g.objects.any (fun o =>
    match o with
    | .shell sh => !sh.is_destroyed
    | _ => false)
  let ms := if shells_exist then max ms1 shellSpeed else ms1
  if ms = 0 then (g, td) else subSteps ms ms.toNat (g, td)

/-- GameManager::cleanupDestroyedObjects: purge destroyed objects. -/
def cleanupDestroyedObjects (g : GameState) : GameState :=
  { g with objects := g.objects.filter (fun o => !o.is_destroyed) }

/-- GameManager::processStep: one full tick, from cooldown bookkeeping to
cleanup, with the per-tank polled actions supplied as input (`acts`) in the
manager's fixed tank iteration order (`order`).  The result carries the
final board state and the per-unit outcome reports of the tick. -/
def processStep (g : GameState) (order : List Nat) (acts : Nat → ActionRequest) :
    GameState × List LoggedAction :=
  let r1 := prepareStep g order
  let td2 := getPlayerActions r1.1 r1.2 acts
  let r3 := processTankTransitions r1.1 td2
  let r4 := executeImmediateActions r3.1 r3.2
  let r5 := runMovementAndCollisionSubSteps r4.1 r4.2
  let logs := r5.2.map (fun d =>
    match r5.1.getTankById d.tank_id with
    | some t =>
        if t.is_destroyed then
          { d.logged_action with was_tank_destroyed := true }
        else d.logged_action
    | none => d.logged_action)
  (cleanupDestroyedObjects r5.1, logs)

/-! ### ChasingAlgorithm: breadth-first pathfinding and the getAction prologue

The strategy sees the board through its cached character matrix
`board_matrix`, modelled as a total function from (size_t) column and row to
the stored character. -/

/-- The direction enumeration order of the BFS neighbor loop in
ChasingAlgorithm::findShortestPathBFS. -/
def bfsDirList : List Direction :=
  [.UP, .DOWN, .LEFT, .RIGHT, .UP_LEFT, .UP_RIGHT, .DOWN_LEFT, .DOWN_RIGHT]

/-- One wrapped neighbor step of the BFS: `next = current + offset`, then
each coordinate is brought back into range by `(coord + size) % size` in
size_t arithmetic (the coordinate is at least -1, so this is the Euclidean
remainder). -/
def bfsNeighbor (w h : Nat) (p : Position) (d : Direction) : Position :=
  let next := p.add (getMovementOffset d 1)
  ⟨(next.x + (w : Int)) % (w : Int), (next.y + (h : Int)) % (h : Int)⟩

/-- The blocked test of the BFS: the cell holds a wall or a mine character
(the helper isBlocked of ChasingAlgorithm.cpp). -/
def bfsBlocked (board : Nat → Nat → Char) (p : Position) : Bool :=
  board p.x.toNat p.y.toNat = '#' || board p.x.toNat p.y.toNat = '@'

/-- The BFS working state: the FIFO frontier queue, the visited set and the
came-from parent map (an association list whose keys are inserted once). -/
structure BfsSt where
  queue : List Position
  visited : List Position
  cf : List (Position × Position)
deriving DecidableEq

/-- Neighbor expansion of one dequeued cell: each unvisited, unblocked
wrapped neighbor is marked visited, given its parent and pushed at the back
of the queue, in the fixed direction order. -/
def bfsExpand (board : Nat → Nat → Char) (w h : Nat) (cur : Position)
    (st : BfsSt) : BfsSt :=
  bfsDirList.foldl (fun st1 d =>
    let nxt := bfsNeighbor w h cur d
    if nxt ∈ st1.visited ∨ bfsBlocked board nxt = true then st1
    else { queue := st1.queue ++ [nxt], visited := st1.visited ++ [nxt],
           cf := (nxt, cur) :: st1.cf }) st

/-- The BFS frontier loop: dequeue, stop successfully on the goal, otherwise
expand the neighbors and continue.  The fuel argument only models
termination; the chosen fuel is proved sufficient. -/
def bfsLoop (board : Nat → Nat → Char) (w h : Nat) (goal : Position) :
    Nat → BfsSt → Option (Bool × List (Position × Position))
  | 0, _ => none
  | fuel + 1, st =>
    match st.queue with
    | [] => some (false, st.cf)
    | cur :: rest =>
      if cur = goal then some (true, st.cf)
      else bfsLoop board w h goal fuel
        (bfsExpand board w h cur { st with queue := rest })

/-- Lookup in the came-from association list. -/
def cfLookup (cf : List (Position × Position)) (p : Position) : Option Position :=
  (cf.find? (fun kv => decide (kv.1 = p))).map Prod.snd

/-- The walk of reconstructPath from the goal back to the start, collecting
the visited cells; the C++ pushes each cell and reverses at the end, which
is the same as prepending here.  A missing parent returns the empty path
(the defensive branch of reconstructPath). -/
def reconLoop (cf : List (Position × Position)) (start : Position) :
    Nat → Position → List Position → List Position
  | 0, _, _ => []
  | f + 1, cur, acc =>
    if cur = start then acc
    else
      match cfLookup cf cur with
      | none => []
      | some p => reconLoop cf start f p (cur :: acc)

/-- reconstructPath of ChasingAlgorithm.cpp: an unreached goal (absent from
the parent map and distinct from the start) yields the empty path, otherwise
the parent chain is walked back to the start; the path excludes the start
and ends at the goal. -/
def reconstructPath (start goal : Position) (cf : List (Position × Position)) :
    List Position :=
  if (cfLookup cf goal).isNone ∧ start ≠ goal then []
  else reconLoop cf start (cf.length + 1) goal []

/-- ChasingAlgorithm::findShortestPathBFS: run the frontier loop from the
start and reconstruct the path when the goal was found. -/
def findShortestPathBFS (board : Nat → Nat → Char) (w h : Nat)
    (start goal : Position) : List Position :=
  let st0 : BfsSt := { queue := [start], visited := [start], cf := [] }
  match bfsLoop board w h goal (2 * w * h + 1) st0 with
  | some (true, cf) => reconstructPath start goal cf
  | _ => []

/-- The strategy state touched by the prologue of
ChasingAlgorithm::getAction: the alternation flag and the locally tracked
cooldown (the other cached fields are read only by the combat logic that
follows the prologue). -/
structure ChaseState where
  shouldAskForBattleInfo : Bool
  cooldown_remaining : Int
deriving DecidableEq

/-- The prologue of ChasingAlgorithm::getAction (the claim's cited lines):
first the tracked cooldown is decremented when above zero, then the
alternation flag is consulted; on an info-request tick the flag is cleared
and GetBattleInfo is returned at once, otherwise the flag is set and the
invocation falls through (result `none`) to the combat and movement logic. -/
def chasingGetActionPrologue (s : ChaseState) : Option ActionRequest × ChaseState :=
  let s1 :=
    if s.cooldown_remaining > 0 then
      { s with cooldown_remaining := s.cooldown_remaining - 1 }
    else s
  if s1.shouldAskForBattleInfo then
    (some .GetBattleInfo, { s1 with shouldAskForBattleInfo := false })
  else (none, { s1 with shouldAskForBattleInfo := true })

/-- A concrete board for the determinism witness: two tanks facing each
other with a wall and a mine on the board. -/
def c1Game : GameState :=
  { board_width := 6, board_height := 4,
    objects := [ .tank (mkTank ⟨0, 1⟩ 1 0 5 .RIGHT),
                 .tank (mkTank ⟨5, 1⟩ 2 1 5 .LEFT),
                 .wall (mkWall ⟨3, 2⟩),
                 .mine (mkMine ⟨2, 3⟩) ] }

/-- First action table of the determinism witness. -/
def c1Acts : Nat → ActionRequest :=
  fun i => if i = 0 then .Shoot else .MoveForward

/-- Second action table of the determinism witness: syntactically different,
pointwise equal. -/
def c1Acts2 : Nat → ActionRequest :=
  fun i => if 0 = i then .Shoot else .MoveForward

/-- Concrete tank for the C3 counterexample: backward-pending with no ammo. -/
def c3Tank : Tank :=
  { mkTank ⟨0, 0⟩ 1 0 0 .RIGHT with movementState := .BWD_1 }

/-- Concrete tank for the C3 witness: ready, ammo 3, no cooldown. -/
def c3TankW : Tank := mkTank ⟨2, 2⟩ 1 0 3 .LEFT

/-- Concrete tank for the C4 counterexample: second backward-pending state. -/
def c4Tank : Tank :=
  { mkTank ⟨0, 0⟩ 1 0 5 .RIGHT with movementState := .BWD_2 }

/-! ## Claim C9: the clone operation -/

/-- The field-by-field relation between a live source object and its clone:
position always preserved; a tank keeps its player id, cannon direction,
ammo and cooldown but is reset to the Ready state with zero progress and no
movement intent; a shell keeps its direction with zero progress; a wall is
reset to full health 2; everything is cloned live. -/
def ClonedFrom : GObj → GObj → Prop
  | .tank t, .tank t2 =>
      t2.position = t.position ∧ t2.player_id = t.player_id ∧
      t2.cannonDirection = t.cannonDirection ∧
      t2.shells_remaining = t.shells_remaining ∧
      t2.cooldown_remaining = t.cooldown_remaining ∧
      t2.movementState = .INITIAL ∧ t2.movement_progress = 0 ∧
      t2.move_intent_this_step = false ∧ t2.is_destroyed = false
  | .shell s, .shell s2 =>
      s2.position = s.position ∧ s2.direction = s.direction ∧
      s2.movement_progress = 0 ∧ s2.is_destroyed = false
  | .wall w, .wall w2 =>
      w2.position = w.position ∧ w2.health = 2 ∧ w2.is_destroyed = false
  | .mine m, .mine m2 => m2.position = m.position ∧ m2.is_destroyed = false
  | _, _ => False

/-! ## Claim C6: obstacle health -/

/-- Whether the object at an index is a destroyed shell. -/
def GameState.isDeadShellIdx (g : GameState) (i : Nat) : Bool :=
  match g.objects[i]? with
  | some (.shell sh) => sh.is_destroyed
  | _ => false

/-- The obstacle states reachable by the engine: a wall is created at health
2 and is only ever damaged through Wall::takeDamage while still live, the
discipline enforced by the live-wall guard of resolveShellWallCollisions. -/
inductive WallReach : Wall → Prop
  | init (p : Position) : WallReach (mkWall p)
  | hit (w : Wall) : WallReach w → w.is_destroyed = false → WallReach (w.takeDamage).2

/-- Concrete state for the C6 witness: one live shell about to hit a fresh
wall. -/
def c6Game : GameState :=
  { board_width := 4, board_height := 4,
    objects := [ .shell (mkShell ⟨1, 1⟩ .RIGHT), .wall (mkWall ⟨2, 1⟩) ] }

/-- Concrete state for the C10 witness: a live shell shares a cell with a
mine, and the requesting tank sits alone on its own cell. -/
def c10Game : GameState :=
  { board_width := 4, board_height := 4,
    objects := [ .mine (mkMine ⟨2, 2⟩), .shell (mkShell ⟨2, 2⟩ .LEFT),
                 .tank (mkTank ⟨0, 0⟩ 1 0 3 .RIGHT) ] }

/-- The requesting tank of the C10 witness. -/
def c10Tank : Tank := mkTank ⟨0, 0⟩ 1 0 3 .RIGHT

/-- Concrete state for the C5 witness: a tank with a pending forward move
into a wall cell. -/
def c5Game : GameState :=
  { board_width := 4, board_height := 4,
    objects := [ .tank { mkTank ⟨1, 1⟩ 1 0 3 .RIGHT with
                           move_intent_this_step := true, multiplier := 1 },
                 .wall (mkWall ⟨2, 1⟩) ] }

/-- The tank of the C5 witness as stored in c5Game. -/
def c5Tank : Tank :=
  { mkTank ⟨1, 1⟩ 1 0 3 .RIGHT with move_intent_this_step := true, multiplier := 1 }

/-- The step entry of the C5 witness: the tank intends to enter the wall. -/
def c5Entry : TankStepData :=
  { tank_id := 0, action := .MoveForward, outcome := .MOVE_PENDING,
    intended_position := ⟨2, 1⟩, blocked_this_sub_step := false,
    logged_action := defaultLogged }

/-! ## Claim C2: projectile-projectile collisions

Small-step lemmas about destroyShellIdx, then the two phases of
resolveShellShellCollisions. -/

/-- Whether the object at an index is a shell (live or destroyed). -/
def GameState.isShellIdx (g : GameState) (i : Nat) : Bool :=
  match g.objects[i]? with
  | some (.shell _) => true
  | _ => false

/-- Concrete board for the C2 counterexample: shell 0 at the origin heading
right, shell 1 just below the target cell heading up, shell 2 adjacent to
shell 0 heading left straight at it. -/
def c2Game : GameState :=
  { board_width := 5, board_height := 5,
    objects := [ .shell (mkShell ⟨0, 0⟩ .RIGHT), .shell (mkShell ⟨1, 1⟩ .UP),
                 .shell (mkShell ⟨1, 0⟩ .LEFT) ] }

/-- Intended sub-step positions of the three shells of c2Game: shells 0 and
1 both intend the cell between, shell 2 intends shell 0's cell. -/
def c2Si : List (Nat × Position) := [(0, ⟨1, 0⟩), (1, ⟨1, 0⟩), (2, ⟨0, 0⟩)]

/-- Concrete board for the C2 witness: two adjacent shells heading straight
at each other, with no interference. -/
def c2GameW : GameState :=
  { board_width := 5, board_height := 5,
    objects := [ .shell (mkShell ⟨0, 0⟩ .RIGHT), .shell (mkShell ⟨1, 0⟩ .LEFT) ] }

/-- Intended positions of the shells of c2GameW: each advances into the
other's current cell. -/
def c2SiW : List (Nat × Position) := [(0, ⟨1, 0⟩), (1, ⟨0, 0⟩)]

/-! ## Claim C7: the breadth-first pathfinding

The graph semantics is stated from the source's own neighbor and blocked
functions (bfsNeighbor, bfsBlocked): ReachIn is the hop-indexed
reachability over the 8-connected wraparound grid excluding wall and mine
cells, and IsShortestLen the true minimum hop count the claim speaks of. -/

/-- A coordinate inside the w-by-h grid. -/
def inBounds (w h : Nat) (p : Position) : Prop :=
  0 ≤ p.x ∧ p.x < (w : Int) ∧ 0 ≤ p.y ∧ p.y < (h : Int)

instance (w h : Nat) (p : Position) : Decidable (inBounds w h p) := by
  unfold inBounds
  infer_instance

/-- Hop-indexed reachability over the BFS graph: one step moves to a
wrapped neighbor whose cell is not blocked. -/
inductive ReachIn (board : Nat → Nat → Char) (w h : Nat) :
    Position → Position → Nat → Prop
  | refl (p : Position) : ReachIn board w h p p 0
  | step (p r : Position) (d : Direction) (n : Nat)
      (hfree : bfsBlocked board (bfsNeighbor w h p d) = false)
      (htail : ReachIn board w h (bfsNeighbor w h p d) r n) :
      ReachIn board w h p r (n + 1)

/-- The true minimum hop count between two cells. -/
def IsShortestLen (board : Nat → Nat → Char) (w h : Nat)
    (s t : Position) (n : Nat) : Prop :=
  ReachIn board w h s t n ∧ ∀ m, ReachIn board w h s t m → n ≤ m

/-- Grid encoding of an in-bounds cell. -/
def cellCode (w : Nat) (p : Position) : Nat :=
  p.x.toNat + p.y.toNat * w

/-- A parent chain of the given length from a cell back to the start in the
came-from map. -/
inductive Chain (cf : List (Position × Position)) (start : Position) :
    Position → Nat → Prop
  | base : Chain cf start start 0
  | step (p q : Position) (n : Nat) (hl : cfLookup cf p = some q)
      (ht : Chain cf start q n) : Chain cf start p (n + 1)

/-- The per-direction body of the bfsExpand fold, factored out. -/
def bfsStepFn (board : Nat → Nat → Char) (w h : Nat) (cur : Position) :
    BfsSt → Direction → BfsSt := fun st1 d =>
  let nxt := bfsNeighbor w h cur d
  if nxt ∈ st1.visited ∨ bfsBlocked board nxt = true then st1
  else { queue := st1.queue ++ [nxt], visited := st1.visited ++ [nxt],
         cf := (nxt, cur) :: st1.cf }

/-- The loop invariant of the BFS frontier loop. -/
structure BfsInv (board : Nat → Nat → Char) (w h : Nat)
    (start goal : Position) (st : BfsSt) : Prop where
  vis_nd : st.visited.Nodup
  q_nd : st.queue.Nodup
  q_sub : ∀ p ∈ st.queue, p ∈ st.visited
  start_vis : start ∈ st.visited
  vis_inb : ∀ p ∈ st.visited, inBounds w h p
  vis_reach : ∀ p ∈ st.visited, ∃ n, Chain st.cf start p n ∧
    IsShortestLen board w h start p n ∧ n ≤ st.cf.length
  cf_keys : ∀ kv ∈ st.cf, kv.1 ∈ st.visited ∧ kv.1 ≠ start
  processed : ∀ u ∈ st.visited, u ∉ st.queue → u ≠ goal ∧
    ∀ d : Direction, bfsBlocked board (bfsNeighbor w h u d) = false →
      bfsNeighbor w h u d ∈ st.visited
  levels : ∃ (dc : Nat) (qa qb : List Position), st.queue = qa ++ qb ∧
    (∀ p ∈ qa, IsShortestLen board w h start p dc) ∧
    (∀ p ∈ qb, IsShortestLen board w h start p (dc + 1))

/-- The invariant of the intermediate states inside one neighbor
expansion, relative to the visited set preVis of the enclosing loop
iteration and the level dc of the dequeued cell. -/
structure ExpInv (board : Nat → Nat → Char) (w h : Nat)
    (start goal cur : Position) (dc : Nat) (preVis : List Position)
    (st1 : BfsSt) : Prop where
  vis_nd : st1.visited.Nodup
  q_nd : st1.queue.Nodup
  q_sub : ∀ p ∈ st1.queue, p ∈ st1.visited
  start_vis : start ∈ st1.visited
  vis_inb : ∀ p ∈ st1.visited, inBounds w h p
  vis_reach : ∀ p ∈ st1.visited, ∃ n, Chain st1.cf start p n ∧
    IsShortestLen board w h start p n ∧ n ≤ st1.cf.length
  cf_keys : ∀ kv ∈ st1.cf, kv.1 ∈ st1.visited ∧ kv.1 ≠ start
  proc : ∀ u ∈ st1.visited, u ∉ st1.queue → u = cur ∨ (u ≠ goal ∧
    ∀ d : Direction, bfsBlocked board (bfsNeighbor w h u d) = false →
      bfsNeighbor w h u d ∈ st1.visited)
  pre_sub : ∀ p ∈ preVis, p ∈ st1.visited
  levels : ∃ (qa qb : List Position), st1.queue = qa ++ qb ∧
    (∀ p ∈ qa, IsShortestLen board w h start p dc) ∧
    (∀ p ∈ qb, IsShortestLen board w h start p (dc + 1))

/-- A 3-by-3 board free of obstacles, for the pathfinding witness. -/
def c7Board : Nat → Nat → Char := fun _ _ => ' '

/-! ## Claim C1: determinism of one full tick -/

/-- C1: running one full tick twice from identical board states, with the
identical fixed tank polling order and identical per-unit action choices,
yields identical results: the embedded processStep is a pure function of the
board state, the tank order and the polled actions, so all object positions,
destroyed flags, ammo counts, cooldowns and per-unit reported outcomes agree
between the two runs, and in particular the single unit each projectile
destroys is the same in both runs. -/
theorem processStep_deterministic (g1 g2 : GameState) (order1 order2 : List Nat)
    (acts1 acts2 : Nat → ActionRequest)
    (hg : g1 = g2) (ho : order1 = order2) (ha : ∀ i, acts1 i = acts2 i) :
    processStep g1 order1 acts1 = processStep g2 order2 acts2 := by
  subst hg
  subst ho
  have hacts : acts1 = acts2 := funext ha
  rw [hacts]

/-- Witness for C1 at a concrete board and concrete action tables. -/
theorem processStep_deterministic_witness :
    processStep c1Game [0, 1] c1Acts = processStep c1Game [0, 1] c1Acts2 := by
  refine processStep_deterministic c1Game c1Game [0, 1] [0, 1] c1Acts c1Acts2 rfl rfl ?_
  intro i
  unfold c1Acts c1Acts2
  by_cases h : i = 0
  · simp [h]
  · have h0 : ¬(0 = i) := fun hh => h hh.symm
    simp [h, h0]

/-! ## Claim C3: shoot requests, ammo and cooldown -/

/-- C3 (amended): a shoot request through the movement state machine yields
ShotInitiated only with ammo above zero and zero cooldown, and the shot then
executed decrements the ammo by exactly 1, sets the cooldown to exactly 4
and spawns the projectile; whenever ammo = 0 or cooldown > 0 no shot occurs
and both counters are unchanged, the outcome being InvalidAction in the
Ready and MovingBackward states, while in the two backward-pending states
the deferred request instead advances the pending counter. -/
theorem shoot_request_spec (t : Tank) :
    ((transitionMovementState t .Shoot).1 = .SHOT_INITIATED →
      t.shells_remaining > 0 ∧ t.cooldown_remaining = 0 ∧
      ((transitionMovementState t .Shoot).2.shoot).1 =
        some (mkShell t.position t.cannonDirection) ∧
      ((transitionMovementState t .Shoot).2.shoot).2.shells_remaining =
        t.shells_remaining - 1 ∧
      ((transitionMovementState t .Shoot).2.shoot).2.cooldown_remaining = 4) ∧
    ((t.shells_remaining = 0 ∨ t.cooldown_remaining > 0) →
      (transitionMovementState t .Shoot).1 ≠ .SHOT_INITIATED ∧
      (transitionMovementState t .Shoot).2.shells_remaining = t.shells_remaining ∧
      (transitionMovementState t .Shoot).2.cooldown_remaining = t.cooldown_remaining ∧
      ((t.movementState = .INITIAL ∨ t.movementState = .MOVING_BWD) →
        (transitionMovementState t .Shoot).1 = .INVALID_ACTION)) := by
  rcases t with ⟨pos, pid, tid, ms, mp, dir, sr, cr, mult, mi, des⟩
  cases ms <;>
    simp only [transitionMovementState, Tank.shoot] <;>
    split_ifs with h <;>
    simp_all <;>
    omega

/-- Counterexample to C3 as stated: a unit in the first backward-pending
state with ammo 0 issues a shoot request and the outcome is StateChanged,
not the InvalidAction rejection the claim demands for every unit with
ammo 0. -/
theorem shoot_request_counterexample :
    c3Tank.shells_remaining = 0 ∧
    (transitionMovementState c3Tank .Shoot).1 = .STATE_CHANGED ∧
    (transitionMovementState c3Tank .Shoot).1 ≠ .INVALID_ACTION := by
  decide

/-- Witness for C3 at a concrete tank: the successful branch. -/
theorem shoot_request_spec_witness :
    c3TankW.shells_remaining > 0 ∧ c3TankW.cooldown_remaining = 0 ∧
    ((transitionMovementState c3TankW .Shoot).2.shoot).1 =
      some (mkShell c3TankW.position c3TankW.cannonDirection) ∧
    ((transitionMovementState c3TankW .Shoot).2.shoot).2.shells_remaining =
      c3TankW.shells_remaining - 1 ∧
    ((transitionMovementState c3TankW .Shoot).2.shoot).2.cooldown_remaining = 4 :=
  (shoot_request_spec c3TankW).1 (by decide)

/-! ## Claim C4: the backward-pending window -/

/-- C4 (amended): from either backward-pending state, a forward-move request
returns the unit to Ready with outcome StateChanged, no movement intent and
an unchanged position; each of backward-move, the four rotations and shoot
leaves the cannon direction and position untouched and advances the pending
counter: from BackwardPending1 to BackwardPending2 with StateChanged, and
from BackwardPending2 to MovingBackward with multiplier -1 and outcome
MovePending.  (DoNothing and the info request do not advance the counter,
so the pending promotion holds for those six actions, not for every
non-forward action.) -/
theorem backward_pending_spec (t : Tank) (a : ActionRequest)
    (hs : t.movementState = .BWD_1 ∨ t.movementState = .BWD_2) :
    (a = .MoveForward →
      (transitionMovementState t a).1 = .STATE_CHANGED ∧
      (transitionMovementState t a).2.movementState = .INITIAL ∧
      (transitionMovementState t a).2.move_intent_this_step = false ∧
      (transitionMovementState t a).2.position = t.position) ∧
    (a = .MoveBackward ∨ a = .RotateLeft45 ∨ a = .RotateLeft90 ∨
        a = .RotateRight45 ∨ a = .RotateRight90 ∨ a = .Shoot →
      (transitionMovementState t a).2.cannonDirection = t.cannonDirection ∧
      (transitionMovementState t a).2.position = t.position ∧
      (transitionMovementState t a).2.shells_remaining = t.shells_remaining ∧
      (transitionMovementState t a).2.cooldown_remaining = t.cooldown_remaining ∧
      (t.movementState = .BWD_1 →
        (transitionMovementState t a).1 = .STATE_CHANGED ∧
        (transitionMovementState t a).2.movementState = .BWD_2 ∧
        (transitionMovementState t a).2.move_intent_this_step = false) ∧
      (t.movementState = .BWD_2 →
        (transitionMovementState t a).1 = .MOVE_PENDING ∧
        (transitionMovementState t a).2.movementState = .MOVING_BWD ∧
        (transitionMovementState t a).2.multiplier = -1 ∧
        (transitionMovementState t a).2.move_intent_this_step = true)) := by
  rcases t with ⟨pos, pid, tid, ms, mp, dir, sr, cr, mult, mi, des⟩
  rcases hs with h | h <;> cases h <;> cases a <;>
    simp [transitionMovementState]

/-- Counterexample to C4 as stated: DoNothing is a non-forward action, yet a
unit in BackwardPending2 receiving it is not promoted to MovingBackward and
does not report MovePending; its state is unchanged. -/
theorem backward_pending_counterexample :
    c4Tank.movementState = .BWD_2 ∧
    ActionRequest.DoNothing ≠ ActionRequest.MoveForward ∧
    (transitionMovementState c4Tank .DoNothing).1 ≠ .MOVE_PENDING ∧
    (transitionMovementState c4Tank .DoNothing).2.movementState ≠ .MOVING_BWD ∧
    (transitionMovementState c4Tank .DoNothing).2.movementState = .BWD_2 := by
  decide

/-- Witness for C4 at a concrete pending tank and the forward action. -/
theorem backward_pending_spec_witness :
    (transitionMovementState c4Tank .MoveForward).1 = .STATE_CHANGED ∧
    (transitionMovementState c4Tank .MoveForward).2.movementState = .INITIAL ∧
    (transitionMovementState c4Tank .MoveForward).2.move_intent_this_step = false ∧
    (transitionMovementState c4Tank .MoveForward).2.position = c4Tank.position :=
  (backward_pending_spec c4Tank .MoveForward (by decide)).1 rfl

/-! ## Claim C8: the pursuit strategy cooldown decrement -/

/-- C8 (amended): the pursuit strategy decrements its locally tracked shot
cooldown (when above zero) at the start of every getAction invocation,
including the alternating info-request invocations; on an info-request
invocation the dedicated info-request action is returned after that
decrement, and on the other invocations control falls through to the combat
and movement logic with the decrement already applied. -/
theorem chasing_cooldown_spec (s : ChaseState) :
    ((chasingGetActionPrologue s).2.cooldown_remaining =
      if s.cooldown_remaining > 0 then s.cooldown_remaining - 1
      else s.cooldown_remaining) ∧
    (s.shouldAskForBattleInfo = true →
      (chasingGetActionPrologue s).1 = some .GetBattleInfo) ∧
    (s.shouldAskForBattleInfo = false →
      (chasingGetActionPrologue s).1 = none) := by
  rcases s with ⟨ask, cd⟩
  cases ask <;> by_cases hcd : cd > 0 <;>
    simp [chasingGetActionPrologue, hcd]

/-- Counterexample to C8 as stated: an info-request invocation (the
alternation flag is set, so GetBattleInfo is returned) still decrements the
tracked cooldown from 3 to 2, contradicting that the cooldown is decremented
only on invocations that are not info-request ticks. -/
theorem chasing_cooldown_counterexample :
    (chasingGetActionPrologue ⟨true, 3⟩).1 = some .GetBattleInfo ∧
    (chasingGetActionPrologue ⟨true, 3⟩).2.cooldown_remaining = 2 ∧
    (chasingGetActionPrologue ⟨true, 3⟩).2.cooldown_remaining ≠ 3 := by
  decide

/-- Witness for C8 at a concrete strategy state. -/
theorem chasing_cooldown_spec_witness :
    ((chasingGetActionPrologue ⟨true, 3⟩).2.cooldown_remaining =
      if (3 : Int) > 0 then (3 : Int) - 1 else 3) ∧
    (chasingGetActionPrologue ⟨true, 3⟩).1 = some .GetBattleInfo :=
  ⟨(chasing_cooldown_spec ⟨true, 3⟩).1,
   (chasing_cooldown_spec ⟨true, 3⟩).2.1 rfl⟩

/-- Loop lemma for C9: the clone loop produces exactly the clones of the
non-destroyed objects, in order. -/
theorem cloneObjects_spec (l : List GObj) :
    ∀ ctr : Nat,
      List.Forall₂ ClonedFrom (l.filter (fun o => !o.is_destroyed))
        (cloneObjects l ctr) := by
  induction l with
  | nil => intro ctr; simp [cloneObjects]
  | cons o rest ih =>
    intro ctr
    cases hd : o.is_destroyed with
    | true => simpa [cloneObjects, hd] using ih ctr
    | false =>
      cases o with
      | tank t =>
          simp only [GObj.is_destroyed] at hd
          simp only [cloneObjects, GObj.is_destroyed, hd, Bool.false_eq_true,
            if_false, List.filter_cons, Bool.not_false, if_true]
          exact List.Forall₂.cons (by simp [ClonedFrom, mkTank]) (ih (ctr + 1))
      | shell s =>
          simp only [GObj.is_destroyed] at hd
          simp only [cloneObjects, GObj.is_destroyed, hd, Bool.false_eq_true,
            if_false, List.filter_cons, Bool.not_false, if_true]
          exact List.Forall₂.cons (by simp [ClonedFrom, mkShell]) (ih ctr)
      | wall w =>
          simp only [GObj.is_destroyed] at hd
          simp only [cloneObjects, GObj.is_destroyed, hd, Bool.false_eq_true,
            if_false, List.filter_cons, Bool.not_false, if_true]
          exact List.Forall₂.cons (by simp [ClonedFrom, mkWall]) (ih ctr)
      | mine m =>
          simp only [GObj.is_destroyed] at hd
          simp only [cloneObjects, GObj.is_destroyed, hd, Bool.false_eq_true,
            if_false, List.filter_cons, Bool.not_false, if_true]
          exact List.Forall₂.cons (by simp [ClonedFrom, mkMine]) (ih ctr)

/-- C9: clone returns a state with the same board dimensions holding exactly
the non-destroyed objects of the original, each related to its source by
ClonedFrom: positions, tank player ids, cannon directions, ammo and
cooldowns, and shell directions are preserved, while every cloned tank is
Ready with zero progress and no intent, every cloned shell has zero
progress, and every cloned wall is back at health 2. -/
theorem clone_spec (g : GameState) (ctr : Nat) :
    (g.clone ctr).board_width = g.board_width ∧
    (g.clone ctr).board_height = g.board_height ∧
    List.Forall₂ ClonedFrom (g.objects.filter (fun o => !o.is_destroyed))
      (g.clone ctr).objects :=
  ⟨rfl, rfl, cloneObjects_spec g.objects ctr⟩

/-- A destroyed shell stays destroyed through the shell-wall resolver. -/
theorem shellWall_dead_mono (wp : List Position) :
    ∀ (si : List (Nat × Position)) (g : GameState) (i : Nat),
      g.isDeadShellIdx i = true →
      (resolveShellWallCollisions g wp si).isDeadShellIdx i = true := by
  intro si
  induction si with
  | nil => intro g i h; simpa [resolveShellWallCollisions] using h
  | cons hd rest ih =>
    intro g i h
    obtain ⟨i1, pos⟩ := hd
    simp only [resolveShellWallCollisions]
    split
    · next sh hsh =>
      split
      · next hcond =>
        split
        · next j hj =>
          split
          · next w hw =>
            split
            · next hwl =>
              apply ih
              have hne : i ≠ i1 := by
                intro he
                subst he
                simp only [GameState.isDeadShellIdx, hsh] at h
                simp [h] at hcond
              have hij : i = j ∨ i ≠ j := em _ |>.imp id id
              unfold GameState.isDeadShellIdx at h ⊢
              rcases eq_or_ne i j with hj' | hj'
              · subst hj'
                rw [hw] at h
                exact absurd h (by simp)
              · simp only [GameState.setObj]
                rw [List.getElem?_set_ne (fun he => hne he.symm),
                    List.getElem?_set_ne (fun he => hj' he.symm)]
                exact h
            · exact ih g i h
          · exact ih g i h
        · exact ih g i h
      · exact ih g i h
    · exact ih g i h

/-- C6: an obstacle starts at health 2; each hit while live decrements its
health by exactly 1; over all engine-reachable obstacle states the health
stays within [0, 2] and the destroyed flag holds exactly when the health is
0, never before; and in the shell-wall resolver a projectile whose intended
cell carries a live wall is destroyed no matter whether the wall died. -/
theorem wall_health_spec :
    (∀ p, (mkWall p).health = 2 ∧ (mkWall p).is_destroyed = false) ∧
    (∀ w : Wall, w.is_destroyed = false → (w.takeDamage).2.health = w.health - 1) ∧
    (∀ w : Wall, WallReach w →
      0 ≤ w.health ∧ w.health ≤ 2 ∧ (w.is_destroyed = true ↔ w.health = 0)) ∧
    (∀ (g : GameState) (wp : List Position) (i : Nat) (pos : Position)
        (rest : List (Nat × Position)) (j : Nat) (w : Wall),
      g.isLiveShellIdx i = true → pos ∈ wp →
      g.getObjectIdxAt pos = some j → g.objects[j]? = some (.wall w) →
      w.is_destroyed = false →
      (resolveShellWallCollisions g wp ((i, pos) :: rest)).isDeadShellIdx i = true) := by
  refine ⟨fun p => ⟨rfl, rfl⟩, ?_, ?_, ?_⟩
  · intro w _
    by_cases hle : w.health - 1 ≤ 0 <;> simp [Wall.takeDamage, hle]
  · intro w h
    induction h with
    | init p => simp [mkWall]
    | hit w hw hlive ih =>
      obtain ⟨h0, h2, hiff⟩ := ih
      have hne : w.health ≠ 0 := by
        intro hh
        rw [hiff.mpr hh] at hlive
        exact absurd hlive (by simp)
      by_cases hle : w.health - 1 ≤ 0 <;>
        simp [Wall.takeDamage, hle, hlive] <;> omega
  · intro g wp i pos rest j w hlive hmem hidx hobj hwl
    have hshell : ∃ sh : Shell, g.objects[i]? = some (.shell sh) ∧ sh.is_destroyed = false := by
      unfold GameState.isLiveShellIdx at hlive
      revert hlive
      split
      · next sh hsh => intro hl; exact ⟨sh, hsh, by simpa using hl⟩
      · intro hl; exact absurd hl (by simp)
    obtain ⟨sh, hsh, hshl⟩ := hshell
    have hij : i ≠ j := by
      intro he
      rw [he, hobj] at hsh
      exact absurd hsh (by simp)
    have hlen : i < g.objects.length := by
      have := List.getElem?_eq_some.mp hsh
      exact this.1
    simp only [resolveShellWallCollisions, hsh, hidx, hobj]
    rw [if_pos ⟨by simp [hshl], hmem⟩, if_pos (by simp [hwl])]
    apply shellWall_dead_mono
    unfold GameState.isDeadShellIdx GameState.setObj
    simp only
    rw [List.getElem?_set_eq_of_lt _ (by simpa using hlen)]

/-- Witness for C6 at a concrete board: the shell that hits the live wall is
destroyed even though the wall survives at health 1. -/
theorem wall_health_spec_witness :
    (resolveShellWallCollisions c6Game [⟨2, 1⟩] [(0, ⟨2, 1⟩)]).isDeadShellIdx 0 = true :=
  wall_health_spec.2.2.2 c6Game [⟨2, 1⟩] 0 ⟨2, 1⟩ [] 1 (mkWall ⟨2, 1⟩)
    (by decide) (by decide) (by decide) (by decide) (by decide)

/-! ## Claim C10: the observation snapshot matrix -/

/-- Reading a written cell gives the written character. -/
theorem writeCell_self (m : Mat) (pos : Position) (c : Char) :
    writeCell m pos c pos = c := by
  simp [writeCell]

/-- Reading any other cell is unaffected by a write. -/
theorem writeCell_ne {q pos : Position} (m : Mat) (c : Char) (h : q ≠ pos) :
    writeCell m pos c q = m q := by
  simp [writeCell, h]

/-- A cell visited by no live shell is untouched by the shell pass. -/
theorem drawShells_preserve (p : Position) :
    ∀ (l : List GObj) (m : Mat),
      (∀ s : Shell, .shell s ∈ l → s.is_destroyed = false → s.position ≠ p) →
      drawShells l m p = m p := by
  intro l
  induction l with
  | nil => intro m _; rfl
  | cons o rest ih =>
    intro m h
    cases o with
    | shell s =>
        cases hd : s.is_destroyed with
        | true =>
            simp only [drawShells, hd]
            exact ih m (fun s' hs' => h s' (List.mem_cons_of_mem _ hs'))
        | false =>
            have hpos : s.position ≠ p := h s (List.mem_cons_self _ _) hd
            simp only [drawShells, hd]
            rw [ih _ (fun s' hs' => h s' (List.mem_cons_of_mem _ hs'))]
            exact writeCell_ne m _ (fun he => hpos he.symm)
    | tank t =>
        simp only [drawShells]
        exact ih m (fun s' hs' => h s' (List.mem_cons_of_mem _ hs'))
    | wall w =>
        simp only [drawShells]
        exact ih m (fun s' hs' => h s' (List.mem_cons_of_mem _ hs'))
    | mine mn =>
        simp only [drawShells]
        exact ih m (fun s' hs' => h s' (List.mem_cons_of_mem _ hs'))

/-- A cell holding a live shell reads as the shell character after the shell
pass, no matter what was drawn below. -/
theorem drawShells_star (p : Position) :
    ∀ (l : List GObj) (m : Mat) (s : Shell),
      .shell s ∈ l → s.is_destroyed = false → s.position = p →
      drawShells l m p = '*' := by
  intro l
  induction l with
  | nil => intro m s hs; exact absurd hs (List.not_mem_nil _)
  | cons o rest ih =>
    intro m s hs hlive hpos
    by_cases hrest : ∃ s' : Shell, .shell s' ∈ rest ∧ s'.is_destroyed = false ∧
        s'.position = p
    · obtain ⟨s', hs', hl', hp'⟩ := hrest
      cases o with
      | shell s0 =>
          cases hd : s0.is_destroyed <;>
            · simp only [drawShells, hd]
              exact ih _ s' hs' hl' hp'
      | tank t => exact ih _ s' hs' hl' hp'
      | wall w => exact ih _ s' hs' hl' hp'
      | mine mn => exact ih _ s' hs' hl' hp'
    · have ho : o = .shell s := by
        rcases List.mem_cons.mp hs with h | h
        · exact h.symm
        · exact absurd ⟨s, h, hlive, hpos⟩ hrest
      subst ho
      simp only [drawShells, hlive]
      rw [drawShells_preserve p rest _ (fun s' hs' hl' hp' =>
        hrest ⟨s', hs', hl', hp'⟩)]
      simp [writeCell, GObj.position, hpos, GObj.render, GObj.is_destroyed, hlive,
        GObj.symbol]

/-- A cell carrying no live object is untouched by the object pass. -/
theorem drawObjects_preserve (p : Position) :
    ∀ (l : List GObj) (m : Mat),
      (∀ o ∈ l, o.is_destroyed = false → o.position ≠ p) →
      drawObjects l m p = m p := by
  intro l
  induction l with
  | nil => intro m _; rfl
  | cons o rest ih =>
    intro m h
    cases hd : o.is_destroyed with
    | true =>
        simp only [drawObjects, hd]
        exact ih m (fun o' ho' => h o' (List.mem_cons_of_mem _ ho'))
    | false =>
        have hpos : o.position ≠ p := h o (List.mem_cons_self _ _) hd
        simp only [drawObjects, hd]
        rw [ih _ (fun o' ho' => h o' (List.mem_cons_of_mem _ ho'))]
        exact writeCell_ne m _ (fun he => hpos he.symm)

/-- When every live object at a cell is one fixed object that does occur
live in the list, the object pass leaves that object's render character. -/
theorem drawObjects_unique (p : Position) (o : GObj) :
    ∀ (l : List GObj) (m : Mat),
      o ∈ l → o.is_destroyed = false → o.position = p →
      (∀ o' ∈ l, o'.is_destroyed = false → o'.position = p → o' = o) →
      drawObjects l m p = o.render := by
  intro l
  induction l with
  | nil => intro m hm; exact absurd hm (List.not_mem_nil _)
  | cons o0 rest ih =>
    intro m hm hlive hpos huniq
    by_cases hrest : o ∈ rest
    · cases hd : o0.is_destroyed <;>
        · simp only [drawObjects, hd]
          exact ih _ hrest hlive hpos
            (fun o' ho' => huniq o' (List.mem_cons_of_mem _ ho'))
    · have ho : o0 = o := by
        rcases List.mem_cons.mp hm with h | h
        · exact h.symm
        · exact absurd h hrest
      subst ho
      simp only [drawObjects, hlive]
      rw [drawObjects_preserve p rest _ (fun o' ho' hl' hp' =>
        hrest (huniq o' (List.mem_cons_of_mem _ ho') hl' hp' ▸ ho'))]
      simp [writeCell, hpos]

/-- C10: in the snapshot matrix every cell holding a live projectile is
classified as a projectile (the second drawing pass runs after all objects,
so a projectile takes precedence over a trap or anything else on its cell);
the satellite view handed to the requesting unit carries the self marker at
that unit's own cell and only there; afterwards the cell is written back to
the tank's render character, so when the requesting tank is the only live
object on its cell the whole matrix is restored exactly. -/
theorem snapshot_spec (g : GameState) (t : Tank) :
    (∀ (p : Position) (s : Shell), .shell s ∈ g.objects → s.is_destroyed = false →
      s.position = p → buildBoardMatrix g p = '*') ∧
    satelliteViewFor (buildBoardMatrix g) t t.position = '%' ∧
    (∀ p, p ≠ t.position →
      satelliteViewFor (buildBoardMatrix g) t p = buildBoardMatrix g p) ∧
    matrixAfterInfoRequest (buildBoardMatrix g) t t.position = GObj.render (.tank t) ∧
    (∀ p, p ≠ t.position →
      matrixAfterInfoRequest (buildBoardMatrix g) t p = buildBoardMatrix g p) ∧
    (.tank t ∈ g.objects → t.is_destroyed = false →
      (∀ o' ∈ g.objects, o'.is_destroyed = false → o'.position = t.position →
        o' = .tank t) →
      matrixAfterInfoRequest (buildBoardMatrix g) t = buildBoardMatrix g) := by
  refine ⟨?_, ?_, ?_, ?_, ?_, ?_⟩
  · intro p s hs hl hp
    exact drawShells_star p g.objects _ s hs hl hp
  · simp [satelliteViewFor, writeCell]
  · intro p hp
    simp [satelliteViewFor, writeCell, hp]
  · simp [matrixAfterInfoRequest, writeCell]
  · intro p hp
    simp [matrixAfterInfoRequest, satelliteViewFor, writeCell, hp]
  · intro hmem hlive huniq
    have hbase : buildBoardMatrix g t.position = GObj.render (.tank t) := by
      unfold buildBoardMatrix
      rw [drawShells_preserve t.position g.objects _ (fun s hs hl hp =>
        by exact absurd (huniq (.shell s) hs (by simpa [GObj.is_destroyed] using hl)
          (by simpa [GObj.position] using hp)) (by simp))]
      exact drawObjects_unique t.position (.tank t) g.objects _ hmem
        (by simpa [GObj.is_destroyed] using hlive) (by simp [GObj.position]) huniq
    funext p
    by_cases hp : p = t.position
    · subst hp
      simp [matrixAfterInfoRequest, satelliteViewFor, writeCell, hbase]
    · simp [matrixAfterInfoRequest, satelliteViewFor, writeCell, hp]

/-- Witness for C10 at a concrete board: the shell-over-mine cell reads as a
projectile, the view shows the self marker at the tank's cell, and the
restored matrix at the tank's cell is its own symbol. -/
theorem snapshot_spec_witness :
    buildBoardMatrix c10Game ⟨2, 2⟩ = '*' ∧
    satelliteViewFor (buildBoardMatrix c10Game) c10Tank c10Tank.position = '%' ∧
    matrixAfterInfoRequest (buildBoardMatrix c10Game) c10Tank c10Tank.position =
      GObj.render (.tank c10Tank) :=
  ⟨(snapshot_spec c10Game c10Tank).1 ⟨2, 2⟩ (mkShell ⟨2, 2⟩ .LEFT)
      (by decide) (by decide) (by decide),
   (snapshot_spec c10Game c10Tank).2.1,
   (snapshot_spec c10Game c10Tank).2.2.2.1⟩

/-! ## Tank alias lemmas shared by the collision-pipeline claims -/

/-- A found tank carries the id it was looked up by. -/
theorem getTankById_id :
    ∀ (l : List GObj) (tid : Nat) (t : Tank),
      l.findSome? (tankIdMatcher tid) = some t → t.tank_id = tid := by
  intro l tid
  induction l with
  | nil => intro t h; exact absurd h (by simp)
  | cons o rest ih =>
    intro t h
    rw [List.findSome?_cons] at h
    revert h
    cases o with
    | tank t0 =>
        simp only [tankIdMatcher]
        by_cases h0 : t0.tank_id = tid
        · rw [if_pos h0]
          intro h
          cases h
          exact h0
        · rw [if_neg h0]
          exact ih t
    | shell s => exact ih t
    | wall w => exact ih t
    | mine m => exact ih t

/-- Looking up the updated id after an id-preserving tank rewrite. -/
theorem findSome?_updTank_self (tid : Nat) (f : Tank → Tank)
    (hf : ∀ t', t'.tank_id = tid → (f t').tank_id = tid) :
    ∀ (l : List GObj) (t : Tank),
      l.findSome? (tankIdMatcher tid) = some t →
      (l.map (updTankObj tid f)).findSome? (tankIdMatcher tid) = some (f t) := by
  intro l
  induction l with
  | nil => intro t h; exact absurd h (by simp)
  | cons o rest ih =>
    intro t h
    rw [List.findSome?_cons] at h
    rw [List.map_cons, List.findSome?_cons]
    revert h
    cases o with
    | tank t0 =>
        simp only [tankIdMatcher, updTankObj]
        by_cases h0 : t0.tank_id = tid
        · rw [if_pos h0, if_pos h0]
          simp only [tankIdMatcher]
          rw [if_pos (hf t0 h0)]
          intro h
          cases h
          rfl
        · rw [if_neg h0, if_neg h0]
          simp only [tankIdMatcher]
          rw [if_neg h0]
          exact ih t
    | shell s => simpa only [tankIdMatcher, updTankObj] using ih t
    | wall w => simpa only [tankIdMatcher, updTankObj] using ih t
    | mine m => simpa only [tankIdMatcher, updTankObj] using ih t

/-- A tank rewrite at a different id leaves a lookup untouched. -/
theorem findSome?_updTank_ne (tid tid' : Nat) (f : Tank → Tank)
    (hne : tid' ≠ tid)
    (hf : ∀ t', t'.tank_id = tid → (f t').tank_id = tid) :
    ∀ l : List GObj,
      (l.map (updTankObj tid f)).findSome? (tankIdMatcher tid') =
        l.findSome? (tankIdMatcher tid') := by
  intro l
  induction l with
  | nil => rfl
  | cons o rest ih =>
    rw [List.map_cons, List.findSome?_cons, List.findSome?_cons]
    cases o with
    | tank t0 =>
        simp only [updTankObj]
        by_cases h0 : t0.tank_id = tid
        · rw [if_pos h0]
          simp only [tankIdMatcher]
          rw [if_neg (fun hh => hne (by rw [← hh]; exact hf t0 h0)),
              if_neg (fun hh => hne (by rw [← hh]; exact h0))]
          exact ih
        · rw [if_neg h0]
          simp only [tankIdMatcher]
          by_cases h1 : t0.tank_id = tid'
          · rw [if_pos h1]
          · rw [if_neg h1]
            exact ih
    | shell s => simpa only [tankIdMatcher, updTankObj] using ih
    | wall w => simpa only [tankIdMatcher, updTankObj] using ih
    | mine m => simpa only [tankIdMatcher, updTankObj] using ih

/-- GameState wrapper of findSome?_updTank_self. -/
theorem getTankById_updTank_self {g : GameState} {tid : Nat} {t : Tank}
    (f : Tank → Tank) (hf : ∀ t', t'.tank_id = tid → (f t').tank_id = tid)
    (h : g.getTankById tid = some t) :
    (g.updTank tid f).getTankById tid = some (f t) :=
  findSome?_updTank_self tid f hf g.objects t h

/-- GameState wrapper of findSome?_updTank_ne. -/
theorem getTankById_updTank_ne {g : GameState} {tid tid' : Nat}
    (f : Tank → Tank) (hne : tid' ≠ tid)
    (hf : ∀ t', t'.tank_id = tid → (f t').tank_id = tid) :
    (g.updTank tid f).getTankById tid' = g.getTankById tid' :=
  findSome?_updTank_ne tid tid' f hne hf g.objects

/-- Replacing a non-tank object by a non-tank object leaves every tank
lookup untouched. -/
theorem findSome?_set_nonTank (tid : Nat) :
    ∀ (l : List GObj) (i : Nat) (o' : GObj),
      (∀ t : Tank, l[i]? ≠ some (.tank t)) → (∀ t : Tank, o' ≠ .tank t) →
      (l.set i o').findSome? (tankIdMatcher tid) =
        l.findSome? (tankIdMatcher tid) := by
  intro l
  induction l with
  | nil => intro i o' _ _; simp
  | cons o rest ih =>
    intro i o' h1 h2
    cases i with
    | zero =>
        rw [List.set_cons_zero, List.findSome?_cons, List.findSome?_cons]
        have hm1 : tankIdMatcher tid o' = none := by
          cases o' with
          | tank t => exact absurd rfl (h2 t)
          | shell s => rfl
          | wall w => rfl
          | mine m => rfl
        have hm2 : tankIdMatcher tid o = none := by
          cases o with
          | tank t => exact absurd (by simp) (h1 t)
          | shell s => rfl
          | wall w => rfl
          | mine m => rfl
        rw [hm1, hm2]
    | succ i =>
        rw [List.set_cons_succ, List.findSome?_cons, List.findSome?_cons]
        cases hm : tankIdMatcher tid o with
        | some t => rfl
        | none => exact ih i o' (by simpa using h1) h2

/-- GameState wrapper: destroying a shell leaves tank lookups untouched. -/
theorem getTankById_destroyShellIdx (g : GameState) (i : Nat) (tid : Nat) :
    (g.destroyShellIdx i).getTankById tid = g.getTankById tid := by
  unfold GameState.destroyShellIdx
  split
  · next sh hsh =>
    unfold GameState.getTankById GameState.setObj
    exact findSome?_set_nonTank tid g.objects i _
      (fun t hh => by rw [hsh] at hh; cases hh) (fun t hh => by cases hh)
  · rfl

/-- The shell-position pass leaves every tank lookup untouched. -/
theorem getTankById_updateShellPositions (tid : Nat) :
    ∀ (si : List (Nat × Position)) (g : GameState),
      (updateShellPositions g si).getTankById tid = g.getTankById tid := by
  intro si
  induction si with
  | nil => intro g; rfl
  | cons hd rest ih =>
    intro g
    obtain ⟨i, ipos⟩ := hd
    simp only [updateShellPositions]
    split
    · next sh hsh =>
      split
      · next hl =>
        rw [ih]
        unfold GameState.getTankById GameState.setObj
        exact findSome?_set_nonTank tid g.objects i _
          (fun t hh => by rw [hsh] at hh; cases hh) (fun t hh => by cases hh)
      · exact ih g
    · exact ih g

/-- The wall-block resolver keeps the tank ids of the step entries. -/
theorem resolveTankWall_ids (wp : List Position) :
    ∀ (td : List TankStepData) (g : GameState),
      (resolveTankWallCollisions g wp td).2.map (fun x => x.tank_id) =
        td.map (fun x => x.tank_id) := by
  intro td
  induction td with
  | nil => intro g; rfl
  | cons d0 rest ih =>
    intro g
    simp only [resolveTankWallCollisions]
    split
    · next t0 ht0 =>
      split
      · next hc =>
        simp only [List.map_cons]
        rw [ih]
      · simp only [List.map_cons]
        rw [ih]
    · simp only [List.map_cons]
      rw [ih]

/-- The wall-block resolver does not touch tanks whose id is absent from the
step entries it processes. -/
theorem resolveTankWall_preserve (wp : List Position) (tid : Nat) :
    ∀ (td : List TankStepData) (g : GameState),
      (∀ d' ∈ td, d'.tank_id ≠ tid) →
      (resolveTankWallCollisions g wp td).1.getTankById tid = g.getTankById tid := by
  intro td
  induction td with
  | nil => intro g _; rfl
  | cons d0 rest ih =>
    intro g hids
    simp only [resolveTankWallCollisions]
    split
    · next t0 ht0 =>
      split
      · next hc =>
        rw [ih _ (fun d' hd' => hids d' (List.mem_cons_of_mem _ hd'))]
        exact getTankById_updTank_ne _
          (fun hh => hids d0 (List.mem_cons_self _ _) hh.symm)
          (fun t' h' => h')
      · exact ih _ (fun d' hd' => hids d' (List.mem_cons_of_mem _ hd'))
    · exact ih _ (fun d' hd' => hids d' (List.mem_cons_of_mem _ hd'))

/-- The tank-position pass does not touch tanks all of whose step entries
are marked blocked. -/
theorem updateTankPositions_preserve (tid : Nat) :
    ∀ (td : List TankStepData) (g : GameState),
      (∀ d' ∈ td, d'.tank_id = tid → d'.blocked_this_sub_step = true) →
      (updateTankPositions g td).1.getTankById tid = g.getTankById tid := by
  intro td
  induction td with
  | nil => intro g _; rfl
  | cons d0 rest ih =>
    intro g hbl
    have htail : ∀ d' ∈ rest, d'.tank_id = tid → d'.blocked_this_sub_step = true :=
      fun d' hd' => hbl d' (List.mem_cons_of_mem _ hd')
    simp only [updateTankPositions]
    split
    · next t0 ht0 =>
      by_cases hmove : (!t0.is_destroyed) = true ∧ ¬d0.blocked_this_sub_step = true
      · rw [if_pos hmove]
        have hne : d0.tank_id ≠ tid := by
          intro hh
          exact hmove.2 (hbl d0 (List.mem_cons_self _ _) hh)
        have : ∀ d1 : TankStepData,
            (updateTankPositions
              (g.updTank d0.tank_id fun t1 => { t1 with position := d0.intended_position })
              rest).1.getTankById tid = g.getTankById tid := by
          intro _
          rw [ih _ htail]
          exact getTankById_updTank_ne _ (fun hh => hne hh.symm) (fun t' h' => h')
        exact this d0
      · rw [if_neg hmove]
        split
        · exact ih _ htail
        · exact ih _ htail
    · exact ih _ htail

/-- Central lemma for C5: a step entry whose tank has a movement intent and
whose intended cell differs from the current one and lands on a wall cell is
blocked by the wall resolver: the tank keeps every field except that its
progress is reset and its intent cancelled, and every step entry carrying
its id is marked blocked with the intended position reverted. -/
theorem resolveTankWall_block (wp : List Position) :
    ∀ (td : List TankStepData) (g : GameState) (d : TankStepData) (t : Tank),
      d ∈ td → (td.map (fun x => x.tank_id)).Nodup →
      g.getTankById d.tank_id = some t →
      t.move_intent_this_step = true →
      d.intended_position ≠ t.position →
      d.intended_position ∈ wp →
      (resolveTankWallCollisions g wp td).1.getTankById d.tank_id =
        some { t with movement_progress := 0, move_intent_this_step := false } ∧
      (∀ d' ∈ (resolveTankWallCollisions g wp td).2,
        d'.tank_id = d.tank_id →
        d'.blocked_this_sub_step = true ∧ d'.intended_position = t.position) ∧
      (∃ d' ∈ (resolveTankWallCollisions g wp td).2, d'.tank_id = d.tank_id) := by
  intro td
  induction td with
  | nil => intro g d t hmem; exact absurd hmem (List.not_mem_nil _)
  | cons d0 rest ih =>
    intro g d t hmem hnd ht hintent hne hwall
    have hndtail : (rest.map (fun x => x.tank_id)).Nodup := by
      rw [List.map_cons] at hnd
      exact hnd.of_cons
    have hhead : d0.tank_id ∉ rest.map (fun x => x.tank_id) := by
      rw [List.map_cons] at hnd
      exact (List.nodup_cons.mp hnd).1
    rcases List.mem_cons.mp hmem with heq | hmem'
    · -- our entry is the head
      subst heq
      simp only [resolveTankWallCollisions, ht]
      rw [if_pos ⟨hintent, hne, hwall⟩]
      have hrest_ids : ∀ d' ∈ rest, d'.tank_id ≠ d.tank_id := by
        intro d' hd' hh
        exact hhead (hh ▸ List.mem_map_of_mem _ hd')
      constructor
      · rw [resolveTankWall_preserve wp d.tank_id rest _ hrest_ids]
        exact getTankById_updTank_self _ (fun t' h' => h') ht
      constructor
      · intro d' hd' hid
        rcases List.mem_cons.mp hd' with h1 | h1
        · subst h1
          exact ⟨rfl, rfl⟩
        · exfalso
          have : d'.tank_id ∈ (resolveTankWallCollisions
              (g.updTank d.tank_id fun t1 =>
                { t1 with movement_progress := 0, move_intent_this_step := false })
              wp rest).2.map (fun x => x.tank_id) :=
            List.mem_map_of_mem _ h1
          rw [resolveTankWall_ids] at this
          rw [hid] at this
          obtain ⟨d2, hd2, hd2id⟩ := List.mem_map.mp this
          exact hrest_ids d2 hd2 hd2id
      · exact ⟨_, List.mem_cons_self _ _, rfl⟩
    · -- our entry is in the tail
      have hne0 : d0.tank_id ≠ d.tank_id := by
        intro hh
        exact hhead (hh ▸ List.mem_map_of_mem _ hmem')
      simp only [resolveTankWallCollisions]
      split
      · next t0 ht0 =>
        split
        · next hc =>
          have ht' : (g.updTank d0.tank_id fun t1 =>
              { t1 with movement_progress := 0,
                        move_intent_this_step := false }).getTankById d.tank_id =
              some t := by
            rw [@getTankById_updTank_ne g d0.tank_id d.tank_id
              (fun t1 => { t1 with movement_progress := 0,
                                   move_intent_this_step := false })
              (fun hh => hne0 hh.symm) (fun t' h' => h')]
            exact ht
          obtain ⟨c1, c2, c3⟩ := ih _ d t hmem' hndtail ht' hintent hne hwall
          refine ⟨c1, ?_, ?_⟩
          · intro d' hd' hid
            rcases List.mem_cons.mp hd' with h1 | h1
            · subst h1
              exact absurd hid hne0
            · exact c2 d' h1 hid
          · obtain ⟨d', hd', hid⟩ := c3
            exact ⟨d', List.mem_cons_of_mem _ hd', hid⟩
        · obtain ⟨c1, c2, c3⟩ := ih _ d t hmem' hndtail ht hintent hne hwall
          refine ⟨c1, ?_, ?_⟩
          · intro d' hd' hid
            rcases List.mem_cons.mp hd' with h1 | h1
            · subst h1
              exact absurd hid hne0
            · exact c2 d' h1 hid
          · obtain ⟨d', hd', hid⟩ := c3
            exact ⟨d', List.mem_cons_of_mem _ hd', hid⟩
      · obtain ⟨c1, c2, c3⟩ := ih _ d t hmem' hndtail ht hintent hne hwall
        refine ⟨c1, ?_, ?_⟩
        · intro d' hd' hid
          rcases List.mem_cons.mp hd' with h1 | h1
          · subst h1
            exact absurd hid hne0
          · exact c2 d' h1 hid
        · obtain ⟨d', hd', hid⟩ := c3
          exact ⟨d', List.mem_cons_of_mem _ hd', hid⟩

/-- C5: a unit whose intended sub-step position lands on a non-destroyed
wall does not move that sub-step: after the wall resolver and the position
update its position is unchanged, its progress accumulator is 0, its
movement intent is cancelled (so the intended position it computes for any
later sub-step of the tick is its own position, and its progress stays 0),
its step entry is marked blocked with the intended position reverted, and
its cannon direction, ammo, cooldown, movement state and destroyed flag are
all unchanged. -/
theorem tank_wall_block_spec (g : GameState) (td : List TankStepData)
    (si : List (Nat × Position)) (d : TankStepData) (t : Tank)
    (hmem : d ∈ td)
    (hids : (td.map (fun x => x.tank_id)).Nodup)
    (ht : g.getTankById d.tank_id = some t)
    (hintent : t.move_intent_this_step = true)
    (hne : d.intended_position ≠ t.position)
    (hwall : d.intended_position ∈ wallPositions g) :
    (updateObjectPositionsSubStep
        (resolveTankWallCollisions g (wallPositions g) td).1
        (resolveTankWallCollisions g (wallPositions g) td).2 si).1.getTankById
      d.tank_id =
      some { t with movement_progress := 0, move_intent_this_step := false } ∧
    (∀ d' ∈ (resolveTankWallCollisions g (wallPositions g) td).2,
      d'.tank_id = d.tank_id →
      d'.blocked_this_sub_step = true ∧ d'.intended_position = t.position) ∧
    (∀ max_speed bw bh : Int,
      (updateMovementProgress
        { t with movement_progress := 0, move_intent_this_step := false }
        max_speed bw bh).1 = t.position ∧
      (updateMovementProgress
        { t with movement_progress := 0, move_intent_this_step := false }
        max_speed bw bh).2.movement_progress = 0) := by
  obtain ⟨c1, c2, c3⟩ := resolveTankWall_block (wallPositions g) td g d t
    hmem hids ht hintent hne hwall
  refine ⟨?_, c2, ?_⟩
  · unfold updateObjectPositionsSubStep
    simp only
    rw [getTankById_updateShellPositions]
    rw [updateTankPositions_preserve d.tank_id _ _
      (fun d' hd' hid => (c2 d' hd' hid).1)]
    exact c1
  · intro max_speed bw bh
    constructor <;> rfl

/-- Witness for C5 at a concrete board. -/
theorem tank_wall_block_spec_witness :
    (updateObjectPositionsSubStep
        (resolveTankWallCollisions c5Game (wallPositions c5Game) [c5Entry]).1
        (resolveTankWallCollisions c5Game (wallPositions c5Game) [c5Entry]).2
        []).1.getTankById 0 =
      some { c5Tank with movement_progress := 0, move_intent_this_step := false } :=
  (tank_wall_block_spec c5Game [c5Entry] [] c5Entry c5Tank
    (List.mem_cons_self _ _) (by decide) (by decide) (by decide) (by decide)
    (by decide)).1

/-- Destroying an index that does not hold a shell is a no-op. -/
theorem destroyShellIdx_not_shell {g : GameState} {k : Nat}
    (h : g.isShellIdx k = false) : g.destroyShellIdx k = g := by
  unfold GameState.destroyShellIdx
  unfold GameState.isShellIdx at h
  split
  · next sh hsh => rw [hsh] at h; exact absurd h (by simp)
  · rfl

/-- Lookup at the destroyed index. -/
theorem destroyShellIdx_lookup_self {g : GameState} {k : Nat} {sh : Shell}
    (h : g.objects[k]? = some (.shell sh)) :
    (g.destroyShellIdx k).objects[k]? =
      some (.shell { sh with is_destroyed := true }) := by
  have hlt : k < g.objects.length := (List.getElem?_eq_some.mp h).1
  unfold GameState.destroyShellIdx
  rw [h]
  simp only [GameState.setObj]
  exact List.getElem?_set_eq_of_lt _ hlt

/-- Lookup away from the destroyed index. -/
theorem destroyShellIdx_lookup_ne (g : GameState) {k i : Nat} (h : k ≠ i) :
    (g.destroyShellIdx k).objects[i]? = g.objects[i]? := by
  unfold GameState.destroyShellIdx
  split
  · next sh hsh =>
    simp only [GameState.setObj]
    exact List.getElem?_set_ne h
  · rfl

/-- Shell positions are untouched by shell destruction. -/
theorem shellPosIdx_destroyShellIdx (g : GameState) (k i : Nat) :
    (g.destroyShellIdx k).shellPosIdx i = g.shellPosIdx i := by
  by_cases hk : k = i
  · subst hk
    unfold GameState.shellPosIdx
    cases hobj : g.objects[k]? with
    | none =>
        rw [destroyShellIdx_not_shell (by unfold GameState.isShellIdx; rw [hobj])]
        rw [hobj]
    | some o =>
        cases o with
        | shell sh =>
            rw [destroyShellIdx_lookup_self hobj]
        | tank t =>
            rw [destroyShellIdx_not_shell (by unfold GameState.isShellIdx; rw [hobj]),
              hobj]
        | wall w =>
            rw [destroyShellIdx_not_shell (by unfold GameState.isShellIdx; rw [hobj]),
              hobj]
        | mine m =>
            rw [destroyShellIdx_not_shell (by unfold GameState.isShellIdx; rw [hobj]),
              hobj]
  · unfold GameState.shellPosIdx
    rw [destroyShellIdx_lookup_ne g hk]

/-- Shell directions are untouched by shell destruction. -/
theorem shellDirIdx_destroyShellIdx (g : GameState) (k i : Nat) :
    (g.destroyShellIdx k).shellDirIdx i = g.shellDirIdx i := by
  by_cases hk : k = i
  · subst hk
    unfold GameState.shellDirIdx
    cases hobj : g.objects[k]? with
    | none =>
        rw [destroyShellIdx_not_shell (by unfold GameState.isShellIdx; rw [hobj])]
        rw [hobj]
    | some o =>
        cases o with
        | shell sh =>
            rw [destroyShellIdx_lookup_self hobj]
        | tank t =>
            rw [destroyShellIdx_not_shell (by unfold GameState.isShellIdx; rw [hobj]),
              hobj]
        | wall w =>
            rw [destroyShellIdx_not_shell (by unfold GameState.isShellIdx; rw [hobj]),
              hobj]
        | mine m =>
            rw [destroyShellIdx_not_shell (by unfold GameState.isShellIdx; rw [hobj]),
              hobj]
  · unfold GameState.shellDirIdx
    rw [destroyShellIdx_lookup_ne g hk]

/-- Shell-ness of every slot is untouched by shell destruction. -/
theorem isShellIdx_destroyShellIdx (g : GameState) (k i : Nat) :
    (g.destroyShellIdx k).isShellIdx i = g.isShellIdx i := by
  by_cases hk : k = i
  · subst hk
    unfold GameState.isShellIdx
    cases hobj : g.objects[k]? with
    | none =>
        rw [destroyShellIdx_not_shell (by unfold GameState.isShellIdx; rw [hobj])]
        rw [hobj]
    | some o =>
        cases o with
        | shell sh =>
            rw [destroyShellIdx_lookup_self hobj]
        | tank t =>
            rw [destroyShellIdx_not_shell (by unfold GameState.isShellIdx; rw [hobj]),
              hobj]
        | wall w =>
            rw [destroyShellIdx_not_shell (by unfold GameState.isShellIdx; rw [hobj]),
              hobj]
        | mine m =>
            rw [destroyShellIdx_not_shell (by unfold GameState.isShellIdx; rw [hobj]),
              hobj]
  · unfold GameState.isShellIdx
    rw [destroyShellIdx_lookup_ne g hk]

/-- A destroyed shell stays destroyed under further shell destruction. -/
theorem isDeadShellIdx_destroyShellIdx (g : GameState) (k i : Nat)
    (h : g.isDeadShellIdx i = true) :
    (g.destroyShellIdx k).isDeadShellIdx i = true := by
  by_cases hk : k = i
  · subst hk
    unfold GameState.isDeadShellIdx at h ⊢
    cases hobj : g.objects[k]? with
    | none => rw [hobj] at h; exact absurd h (by simp)
    | some o =>
        cases o with
        | shell sh => rw [destroyShellIdx_lookup_self hobj]
        | tank t => rw [hobj] at h; exact absurd h (by simp)
        | wall w => rw [hobj] at h; exact absurd h (by simp)
        | mine m => rw [hobj] at h; exact absurd h (by simp)
  · unfold GameState.isDeadShellIdx at h ⊢
    rw [destroyShellIdx_lookup_ne g hk]
    exact h

/-- A live slot was live one destruction earlier. -/
theorem isLiveShellIdx_destroyShellIdx (g : GameState) (k i : Nat)
    (h : (g.destroyShellIdx k).isLiveShellIdx i = true) :
    g.isLiveShellIdx i = true := by
  by_cases hk : k = i
  · subst hk
    unfold GameState.isLiveShellIdx at h ⊢
    cases hobj : g.objects[k]? with
    | none =>
        rw [destroyShellIdx_not_shell (by unfold GameState.isShellIdx; rw [hobj]),
          hobj] at h
        exact absurd h (by simp)
    | some o =>
        cases o with
        | shell sh => rw [destroyShellIdx_lookup_self hobj] at h; exact absurd h (by simp)
        | tank t =>
            rw [destroyShellIdx_not_shell (by unfold GameState.isShellIdx; rw [hobj]),
              hobj] at h
            exact absurd h (by simp)
        | wall w =>
            rw [destroyShellIdx_not_shell (by unfold GameState.isShellIdx; rw [hobj]),
              hobj] at h
            exact absurd h (by simp)
        | mine m =>
            rw [destroyShellIdx_not_shell (by unfold GameState.isShellIdx; rw [hobj]),
              hobj] at h
            exact absurd h (by simp)
  · unfold GameState.isLiveShellIdx at h ⊢
    rw [destroyShellIdx_lookup_ne g hk] at h
    exact h

/-- Destroying a different index preserves liveness. -/
theorem isLiveShellIdx_destroyShellIdx_ne (g : GameState) {k i : Nat} (hk : k ≠ i) :
    (g.destroyShellIdx k).isLiveShellIdx i = g.isLiveShellIdx i := by
  unfold GameState.isLiveShellIdx
  rw [destroyShellIdx_lookup_ne g hk]

/-- Destroying a live shell marks it destroyed. -/
theorem isDeadShellIdx_destroyShellIdx_self (g : GameState) (i : Nat)
    (h : g.isShellIdx i = true) :
    (g.destroyShellIdx i).isDeadShellIdx i = true := by
  unfold GameState.isShellIdx at h
  revert h
  cases hobj : g.objects[i]? with
  | none => intro h; exact absurd h (by simp)
  | some o =>
      cases o with
      | shell sh =>
          intro _
          unfold GameState.isDeadShellIdx
          rw [destroyShellIdx_lookup_self hobj]
      | tank t => intro h; exact absurd h (by simp)
      | wall w => intro h; exact absurd h (by simp)
      | mine m => intro h; exact absurd h (by simp)

/-- A live shell slot is a shell slot. -/
theorem isShellIdx_of_live {g : GameState} {i : Nat}
    (h : g.isLiveShellIdx i = true) : g.isShellIdx i = true := by
  unfold GameState.isLiveShellIdx at h
  unfold GameState.isShellIdx
  revert h
  cases g.objects[i]? with
  | none => intro h; exact absurd h (by simp)
  | some o => cases o <;> simp

/-- A dead shell slot is a shell slot. -/
theorem isShellIdx_of_dead {g : GameState} {i : Nat}
    (h : g.isDeadShellIdx i = true) : g.isShellIdx i = true := by
  unfold GameState.isDeadShellIdx at h
  unfold GameState.isShellIdx
  revert h
  cases g.objects[i]? with
  | none => intro h; exact absurd h (by simp)
  | some o => cases o <;> simp

/-- With duplicate-free keys an index determines its intended position. -/
theorem keys_nodup_eq {si : List (Nat × Position)}
    (hnd : (si.map Prod.fst).Nodup) {x : Nat} {p1 p2 : Position}
    (h1 : (x, p1) ∈ si) (h2 : (x, p2) ∈ si) : p1 = p2 := by
  induction si with
  | nil => exact absurd h1 (List.not_mem_nil _)
  | cons hd0 rest ih =>
    rw [List.map_cons, List.nodup_cons] at hnd
    rcases List.mem_cons.mp h1 with e1 | e1 <;> rcases List.mem_cons.mp h2 with e2 | e2
    · exact congrArg Prod.snd (e1.trans e2.symm)
    · exact absurd ((congrArg Prod.fst e1) ▸ List.mem_map.mpr ⟨(x, p2), e2, rfl⟩)
        hnd.1
    · exact absurd ((congrArg Prod.fst e2) ▸ List.mem_map.mpr ⟨(x, p1), e1, rfl⟩)
        hnd.1
    · exact ih hnd.2 e1 e2

/-- A shell slot cannot be live and dead at once. -/
theorem not_live_and_dead {g : GameState} {i : Nat}
    (hl : g.isLiveShellIdx i = true) (hd : g.isDeadShellIdx i = true) : False := by
  unfold GameState.isLiveShellIdx at hl
  unfold GameState.isDeadShellIdx at hd
  revert hl hd
  cases g.objects[i]? with
  | none => intro h; exact absurd h (by simp)
  | some o =>
      cases o with
      | shell sh =>
          intro hl hd
          simp at hl hd
          simp [hd] at hl
      | tank t => intro h; exact absurd h (by simp)
      | wall w => intro h; exact absurd h (by simp)
      | mine m => intro h; exact absurd h (by simp)

/-- The coincident-intended phase changes no shell position, direction or
slot kind. -/
theorem phase1_static (g0 : GameState) (si : List (Nat × Position)) (n : Nat) :
    ∀ (wl : List (Nat × Position)) (g : GameState),
      (shellShellPhase1 g0 g si wl).shellPosIdx n = g.shellPosIdx n ∧
      (shellShellPhase1 g0 g si wl).shellDirIdx n = g.shellDirIdx n ∧
      (shellShellPhase1 g0 g si wl).isShellIdx n = g.isShellIdx n := by
  intro wl
  induction wl with
  | nil => intro g; exact ⟨rfl, rfl, rfl⟩
  | cons hd0 rest ih =>
    intro g
    obtain ⟨i, pos⟩ := hd0
    simp only [shellShellPhase1]
    split
    · obtain ⟨s1, s2, s3⟩ := ih (g.destroyShellIdx i)
      exact ⟨s1.trans (shellPosIdx_destroyShellIdx g i n),
             s2.trans (shellDirIdx_destroyShellIdx g i n),
             s3.trans (isShellIdx_destroyShellIdx g i n)⟩
    · exact ih g

/-- Dead shells stay dead through the coincident phase. -/
theorem phase1_dead_mono (g0 : GameState) (si : List (Nat × Position)) (i : Nat) :
    ∀ (wl : List (Nat × Position)) (g : GameState),
      g.isDeadShellIdx i = true →
      (shellShellPhase1 g0 g si wl).isDeadShellIdx i = true := by
  intro wl
  induction wl with
  | nil => intro g h; exact h
  | cons hd0 rest ih =>
    intro g h
    obtain ⟨i0, pos⟩ := hd0
    simp only [shellShellPhase1]
    split
    · exact ih _ (isDeadShellIdx_destroyShellIdx g i0 i h)
    · exact ih _ h

/-- Shells live after the coincident phase were live before it. -/
theorem phase1_live_back (g0 : GameState) (si : List (Nat × Position)) (i : Nat) :
    ∀ (wl : List (Nat × Position)) (g : GameState),
      (shellShellPhase1 g0 g si wl).isLiveShellIdx i = true →
      g.isLiveShellIdx i = true := by
  intro wl
  induction wl with
  | nil => intro g h; exact h
  | cons hd0 rest ih =>
    intro g h
    obtain ⟨i0, pos⟩ := hd0
    simp only [shellShellPhase1] at h
    revert h
    split
    · intro h
      exact isLiveShellIdx_destroyShellIdx g i0 i (ih _ h)
    · intro h
      exact ih _ h

/-- A shell none of whose entries has a coincident live partner keeps its
liveness through the coincident phase. -/
theorem phase1_preserve (g0 : GameState) (si : List (Nat × Position)) (x : Nat) :
    ∀ (wl : List (Nat × Position)) (g : GameState),
      (∀ px, (x, px) ∈ wl →
        ¬(g0.isLiveShellIdx x = true ∧
          (si.any fun jp =>
            jp.1 ≠ x && g0.isLiveShellIdx jp.1 && decide (jp.2 = px)) = true)) →
      (shellShellPhase1 g0 g si wl).isLiveShellIdx x = g.isLiveShellIdx x := by
  intro wl
  induction wl with
  | nil => intro g _; rfl
  | cons hd0 rest ih =>
    intro g hsafe
    obtain ⟨i0, pos⟩ := hd0
    simp only [shellShellPhase1]
    split
    · next hcond =>
      have hne : i0 ≠ x := by
        intro he
        subst he
        exact hsafe pos (List.mem_cons_self _ _) ⟨hcond.1, hcond.2⟩
      rw [ih _ (fun px hm => hsafe px (List.mem_cons_of_mem _ hm))]
      exact isLiveShellIdx_destroyShellIdx_ne g hne
    · exact ih _ (fun px hm => hsafe px (List.mem_cons_of_mem _ hm))

/-- A live shell sharing its intended cell with a live partner is destroyed
by the coincident phase. -/
theorem phase1_kills (g0 : GameState) (si : List (Nat × Position)) :
    ∀ (wl : List (Nat × Position)) (g : GameState) (i : Nat) (pi0 : Position),
      (i, pi0) ∈ wl → g.isShellIdx i = true →
      g0.isLiveShellIdx i = true →
      (si.any fun jp =>
        jp.1 ≠ i && g0.isLiveShellIdx jp.1 && decide (jp.2 = pi0)) = true →
      (shellShellPhase1 g0 g si wl).isDeadShellIdx i = true := by
  intro wl
  induction wl with
  | nil => intro g i pi0 hm; exact absurd hm (List.not_mem_nil _)
  | cons hd0 rest ih =>
    intro g i pi0 hm hsh hlive hany
    rcases List.mem_cons.mp hm with he | hm'
    · rw [← he]
      simp only [shellShellPhase1]
      rw [if_pos ⟨hlive, hany⟩]
      exact phase1_dead_mono g0 si i rest _
        (isDeadShellIdx_destroyShellIdx_self g i hsh)
    · obtain ⟨i0, pos⟩ := hd0
      simp only [shellShellPhase1]
      split
      · exact ih _ i pi0 hm'
          ((isShellIdx_destroyShellIdx g i0 i).trans hsh) hlive hany
      · exact ih _ i pi0 hm' hsh hlive hany

/-- The head-on inner loop changes no shell position, direction or slot
kind. -/
theorem inner_static (k : Nat) (kpos : Position) (kdir : Direction) (n : Nat) :
    ∀ (sil : List (Nat × Position)) (g : GameState),
      (shellShellHeadOnInner k kpos kdir g sil).shellPosIdx n = g.shellPosIdx n ∧
      (shellShellHeadOnInner k kpos kdir g sil).shellDirIdx n = g.shellDirIdx n ∧
      (shellShellHeadOnInner k kpos kdir g sil).isShellIdx n = g.isShellIdx n := by
  intro sil
  induction sil with
  | nil => intro g; exact ⟨rfl, rfl, rfl⟩
  | cons hd0 rest ih =>
    intro g
    obtain ⟨j, jpos⟩ := hd0
    simp only [shellShellHeadOnInner]
    split
    · obtain ⟨s1, s2, s3⟩ := ih ((g.destroyShellIdx k).destroyShellIdx j)
      refine ⟨?_, ?_, ?_⟩
      · rw [s1, shellPosIdx_destroyShellIdx, shellPosIdx_destroyShellIdx]
      · rw [s2, shellDirIdx_destroyShellIdx, shellDirIdx_destroyShellIdx]
      · rw [s3, isShellIdx_destroyShellIdx, isShellIdx_destroyShellIdx]
    · exact ih g

/-- Dead shells stay dead through the head-on inner loop. -/
theorem inner_dead_mono (k : Nat) (kpos : Position) (kdir : Direction) (i : Nat) :
    ∀ (sil : List (Nat × Position)) (g : GameState),
      g.isDeadShellIdx i = true →
      (shellShellHeadOnInner k kpos kdir g sil).isDeadShellIdx i = true := by
  intro sil
  induction sil with
  | nil => intro g h; exact h
  | cons hd0 rest ih =>
    intro g h
    obtain ⟨j, jpos⟩ := hd0
    simp only [shellShellHeadOnInner]
    split
    · exact ih _ (isDeadShellIdx_destroyShellIdx _ j i
        (isDeadShellIdx_destroyShellIdx g k i h))
    · exact ih _ h

/-- Shells live after the head-on inner loop were live before it. -/
theorem inner_live_back (k : Nat) (kpos : Position) (kdir : Direction) (i : Nat) :
    ∀ (sil : List (Nat × Position)) (g : GameState),
      (shellShellHeadOnInner k kpos kdir g sil).isLiveShellIdx i = true →
      g.isLiveShellIdx i = true := by
  intro sil
  induction sil with
  | nil => intro g h; exact h
  | cons hd0 rest ih =>
    intro g h
    obtain ⟨j, jpos⟩ := hd0
    simp only [shellShellHeadOnInner] at h
    revert h
    split
    · intro h
      exact isLiveShellIdx_destroyShellIdx g k i
        (isLiveShellIdx_destroyShellIdx _ j i (ih _ h))
    · intro h
      exact ih _ h

/-- A shell distinct from the dequeued one and with no entry aimed head-on
at that shell keeps its liveness through the inner loop. -/
theorem inner_preserve (k : Nat) (kpos : Position) (kdir : Direction) (x : Nat)
    (hxk : x ≠ k) :
    ∀ (sil : List (Nat × Position)) (g : GameState),
      (∀ px, (x, px) ∈ sil →
        ¬(px = kpos ∧ oppositeDirs kdir (g.shellDirIdx x) = true)) →
      (shellShellHeadOnInner k kpos kdir g sil).isLiveShellIdx x =
        g.isLiveShellIdx x := by
  intro sil
  induction sil with
  | nil => intro g _; rfl
  | cons hd0 rest ih =>
    intro g hsafe
    obtain ⟨j, jpos⟩ := hd0
    simp only [shellShellHeadOnInner]
    split
    · next hcond =>
      have hne : j ≠ x := by
        intro he
        subst he
        exact hsafe jpos (List.mem_cons_self _ _) ⟨hcond.2.1, hcond.2.2.2⟩
      have hstep : ∀ px, (x, px) ∈ rest →
          ¬(px = kpos ∧
            oppositeDirs kdir
              (((g.destroyShellIdx k).destroyShellIdx j).shellDirIdx x) = true) := by
        intro px hm
        rw [shellDirIdx_destroyShellIdx, shellDirIdx_destroyShellIdx]
        exact hsafe px (List.mem_cons_of_mem _ hm)
      rw [ih _ hstep]
      rw [isLiveShellIdx_destroyShellIdx_ne _ hne,
          isLiveShellIdx_destroyShellIdx_ne _ (fun he => hxk he.symm)]
    · exact ih _ (fun px hm => hsafe px (List.mem_cons_of_mem _ hm))

/-- When some entry of the inner list is a live shell aimed head-on at the
dequeued shell's cell, both that entry's shell and the dequeued shell are
destroyed by the inner loop. -/
theorem inner_kills (k : Nat) (kpos : Position) (kdir : Direction) :
    ∀ (sil : List (Nat × Position)) (g : GameState) (b : Nat) (pb : Position),
      (b, pb) ∈ sil → b ≠ k → pb = kpos →
      oppositeDirs kdir (g.shellDirIdx b) = true →
      g.isLiveShellIdx b = true → g.isShellIdx k = true →
      (shellShellHeadOnInner k kpos kdir g sil).isDeadShellIdx k = true ∧
      (shellShellHeadOnInner k kpos kdir g sil).isDeadShellIdx b = true := by
  intro sil
  induction sil with
  | nil => intro g b pb hm; exact absurd hm (List.not_mem_nil _)
  | cons hd0 rest ih =>
    intro g b pb hm hbk hpb hopp hliveb hshk
    obtain ⟨j, jpos⟩ := hd0
    by_cases hcond : g.isLiveShellIdx j = true ∧ jpos = kpos ∧ j ≠ k ∧
        oppositeDirs kdir (g.shellDirIdx j) = true
    · simp only [shellShellHeadOnInner]
      rw [if_pos hcond]
      by_cases hjb : j = b
      · subst hjb
        have hdk : ((g.destroyShellIdx k).destroyShellIdx j).isDeadShellIdx k = true :=
          isDeadShellIdx_destroyShellIdx _ j k
            (isDeadShellIdx_destroyShellIdx_self g k hshk)
        have hdb : ((g.destroyShellIdx k).destroyShellIdx j).isDeadShellIdx j = true :=
          isDeadShellIdx_destroyShellIdx_self _ j
            ((isShellIdx_destroyShellIdx g k j).trans (isShellIdx_of_live hliveb))
        exact ⟨inner_dead_mono k kpos kdir k rest _ hdk,
               inner_dead_mono k kpos kdir j rest _ hdb⟩
      · have hm' : (b, pb) ∈ rest := by
          rcases List.mem_cons.mp hm with he | hm'
          · exact absurd (congrArg Prod.fst he).symm hjb
          · exact hm'
        refine ih _ b pb hm' hbk hpb ?_ ?_ ?_
        · rw [shellDirIdx_destroyShellIdx, shellDirIdx_destroyShellIdx]
          exact hopp
        · rw [isLiveShellIdx_destroyShellIdx_ne _ hjb,
              isLiveShellIdx_destroyShellIdx_ne _ (fun he => hbk he.symm)]
          exact hliveb
        · rw [isShellIdx_destroyShellIdx, isShellIdx_destroyShellIdx]
          exact hshk
    · have hm' : (b, pb) ∈ rest := by
        rcases List.mem_cons.mp hm with he | hm'
        · exfalso
          apply hcond
          have h1 : j = b := (congrArg Prod.fst he).symm
          have h2 : jpos = pb := (congrArg Prod.snd he).symm
          subst h1
          subst h2
          exact ⟨hliveb, hpb, hbk, hopp⟩
        · exact hm'
      simp only [shellShellHeadOnInner]
      rw [if_neg hcond]
      exact ih _ b pb hm' hbk hpb hopp hliveb hshk

/-- When no entry of the inner list triggers a head-on against the dequeued
shell, the inner loop leaves the state untouched. -/
theorem inner_noop (k : Nat) (kpos : Position) (kdir : Direction) :
    ∀ (sil : List (Nat × Position)) (g : GameState),
      (∀ jp ∈ sil,
        ¬(g.isLiveShellIdx jp.1 = true ∧ jp.2 = kpos ∧ jp.1 ≠ k ∧
          oppositeDirs kdir (g.shellDirIdx jp.1) = true)) →
      shellShellHeadOnInner k kpos kdir g sil = g := by
  intro sil
  induction sil with
  | nil => intro g _; rfl
  | cons hd0 rest ih =>
    intro g hsafe
    obtain ⟨j, jpos⟩ := hd0
    simp only [shellShellHeadOnInner]
    rw [if_neg (hsafe (j, jpos) (List.mem_cons_self _ _))]
    exact ih _ (fun jp hm => hsafe jp (List.mem_cons_of_mem _ hm))

/-- Dead shells stay dead through the head-on phase. -/
theorem phase2_dead_mono (si : List (Nat × Position)) (i : Nat) :
    ∀ (ks : List Nat) (g : GameState),
      g.isDeadShellIdx i = true →
      (shellShellPhase2 g si ks).isDeadShellIdx i = true := by
  intro ks
  induction ks with
  | nil => intro g h; exact h
  | cons k rest ih =>
    intro g h
    simp only [shellShellPhase2]
    split
    · exact ih _ (inner_dead_mono k _ _ i si g h)
    · exact ih _ h

/-- Core of the pass-through argument: starting from a state where the
head-on pair is still alive and its geometry matches the original state,
running the head-on phase over a worklist containing the moving member
destroys both members, provided no third live shell interferes with
either member. -/
theorem phase2_pair (si : List (Nat × Position)) (g : GameState)
    (a b : Nat) (pa pb : Position)
    (hnd : (si.map Prod.fst).Nodup)
    (hab : a ≠ b)
    (hmema : (a, pa) ∈ si) (hmemb : (b, pb) ∈ si)
    (hpb : pb = g.shellPosIdx a)
    (hopp : oppositeDirs (g.shellDirIdx a) (g.shellDirIdx b) = true)
    (H3 : ∀ c pc, (c, pc) ∈ si → c ≠ a → c ≠ b → g.isLiveShellIdx c = true →
      ¬(pa = g.shellPosIdx c ∧
          oppositeDirs (g.shellDirIdx c) (g.shellDirIdx a) = true) ∧
      ¬(pb = g.shellPosIdx c ∧
          oppositeDirs (g.shellDirIdx c) (g.shellDirIdx b) = true) ∧
      ¬(pc = g.shellPosIdx a ∧
          oppositeDirs (g.shellDirIdx a) (g.shellDirIdx c) = true) ∧
      ¬(pc = g.shellPosIdx b ∧
          oppositeDirs (g.shellDirIdx b) (g.shellDirIdx c) = true)) :
    ∀ (ks : List Nat) (g1 : GameState),
      a ∈ ks →
      (∀ k ∈ ks, ∃ pk, (k, pk) ∈ si) →
      (∀ n, g1.shellPosIdx n = g.shellPosIdx n) →
      (∀ n, g1.shellDirIdx n = g.shellDirIdx n) →
      (∀ n, g1.isShellIdx n = g.isShellIdx n) →
      (∀ c, g1.isLiveShellIdx c = true → g.isLiveShellIdx c = true) →
      g1.isLiveShellIdx a = true → g1.isLiveShellIdx b = true →
      (shellShellPhase2 g1 si ks).isDeadShellIdx a = true ∧
      (shellShellPhase2 g1 si ks).isDeadShellIdx b = true := by
  intro ks
  induction ks with
  | nil => intro g1 hm; exact absurd hm (List.not_mem_nil _)
  | cons k rest ih =>
    intro g1 hmks hks hpos hdir hsh hmono hla hlb
    by_cases hka : k = a
    · subst hka
      simp only [shellShellPhase2]
      rw [if_pos hla]
      have hkill := inner_kills k (g1.shellPosIdx k) (g1.shellDirIdx k) si g1 b pb
        hmemb (Ne.symm hab) (by rw [hpos k]; exact hpb)
        (by rw [hdir k, hdir b]; exact hopp) hlb (isShellIdx_of_live hla)
      exact ⟨phase2_dead_mono si k rest _ hkill.1,
             phase2_dead_mono si b rest _ hkill.2⟩
    · by_cases hkb : k = b
      · subst hkb
        simp only [shellShellPhase2]
        rw [if_pos hlb]
        by_cases hmut : pa = g.shellPosIdx k ∧
            oppositeDirs (g.shellDirIdx k) (g.shellDirIdx a) = true
        · have hkill := inner_kills k (g1.shellPosIdx k) (g1.shellDirIdx k) si g1 a pa
            hmema hab (by rw [hpos k]; exact hmut.1)
            (by rw [hdir k, hdir a]; exact hmut.2) hla (isShellIdx_of_live hlb)
          exact ⟨phase2_dead_mono si a rest _ hkill.2,
                 phase2_dead_mono si k rest _ hkill.1⟩
        · have hno : shellShellHeadOnInner k (g1.shellPosIdx k) (g1.shellDirIdx k)
              g1 si = g1 := by
            apply inner_noop
            intro jp hjp hcontra
            obtain ⟨c, pc⟩ := jp
            obtain ⟨hlj, hjpos, hjk, hjopp⟩ := hcontra
            by_cases hca : c = a
            · subst hca
              have hpc : pc = pa := keys_nodup_eq hnd hjp hmema
              apply hmut
              constructor
              · rw [← hpc, ← hpos k]; exact hjpos
              · rw [← hdir k, ← hdir c]; exact hjopp
            · by_cases hcb : c = k
              · exact hjk hcb
              · have hlc : g.isLiveShellIdx c = true := hmono _ hlj
                apply (H3 c pc hjp hca hcb hlc).2.2.2
                constructor
                · rw [← hpos k]; exact hjpos
                · rw [← hdir k, ← hdir c]; exact hjopp
          rw [hno]
          have hma : a ∈ rest := by
            rcases List.mem_cons.mp hmks with he | hmm
            · exact absurd he.symm hka
            · exact hmm
          exact ih _ hma (fun k2 hk2 => hks k2 (List.mem_cons_of_mem _ hk2))
            hpos hdir hsh hmono hla hlb
      · simp only [shellShellPhase2]
        have hma : a ∈ rest := by
          rcases List.mem_cons.mp hmks with he | hmm
          · exact absurd he.symm hka
          · exact hmm
        by_cases hlk : g1.isLiveShellIdx k = true
        · rw [if_pos hlk]
          obtain ⟨pk, hpk⟩ := hks k (List.mem_cons_self _ _)
          have hH := H3 k pk hpk hka hkb (hmono _ hlk)
          have hpra : (shellShellHeadOnInner k (g1.shellPosIdx k)
              (g1.shellDirIdx k) g1 si).isLiveShellIdx a = g1.isLiveShellIdx a := by
            apply inner_preserve k _ _ a (fun he => hka he.symm)
            intro px hm hcc
            have hpx : px = pa := keys_nodup_eq hnd hm hmema
            apply hH.1
            constructor
            · rw [← hpx, ← hpos k]; exact hcc.1
            · rw [← hdir k, ← hdir a]; exact hcc.2
          have hprb : (shellShellHeadOnInner k (g1.shellPosIdx k)
              (g1.shellDirIdx k) g1 si).isLiveShellIdx b = g1.isLiveShellIdx b := by
            apply inner_preserve k _ _ b (fun he => hkb he.symm)
            intro px hm hcc
            have hpx : px = pb := keys_nodup_eq hnd hm hmemb
            apply hH.2.1
            constructor
            · rw [← hpx, ← hpos k]; exact hcc.1
            · rw [← hdir k, ← hdir b]; exact hcc.2
          refine ih _ hma (fun k2 hk2 => hks k2 (List.mem_cons_of_mem _ hk2))
            ?_ ?_ ?_ ?_ ?_ ?_
          · intro n
            exact ((inner_static k _ _ n si g1).1).trans (hpos n)
          · intro n
            exact ((inner_static k _ _ n si g1).2.1).trans (hdir n)
          · intro n
            exact ((inner_static k _ _ n si g1).2.2).trans (hsh n)
          · intro c hc
            exact hmono c (inner_live_back k _ _ c si g1 hc)
          · rw [hpra]; exact hla
          · rw [hprb]; exact hlb
        · rw [if_neg hlk]
          exact ih _ hma (fun k2 hk2 => hks k2 (List.mem_cons_of_mem _ hk2))
            hpos hdir hsh hmono hla hlb

/-- C2 (amended): in the projectile-projectile resolver, (first part) any
two live projectiles whose intended positions coincide are both destroyed;
and (second part) two live projectiles in the pass-through configuration
(one's intended position equals the other's current position with exactly
opposite directions) are both destroyed provided no third live projectile
interferes with the pair, namely none shares an intended cell with either
member and none forms a head-on configuration with either member.  Without
that proviso the pass-through conclusion fails (see the counterexample). -/
theorem shell_shell_spec (g : GameState) (si : List (Nat × Position))
    (hnd : (si.map Prod.fst).Nodup) :
    (∀ i pi0 j pj, (i, pi0) ∈ si → (j, pj) ∈ si → i ≠ j → pi0 = pj →
      g.isLiveShellIdx i = true → g.isLiveShellIdx j = true →
      (resolveShellShellCollisions g si).isDeadShellIdx i = true ∧
      (resolveShellShellCollisions g si).isDeadShellIdx j = true) ∧
    (∀ a pa b pb, (a, pa) ∈ si → (b, pb) ∈ si → a ≠ b →
      g.isLiveShellIdx a = true → g.isLiveShellIdx b = true →
      pb = g.shellPosIdx a →
      oppositeDirs (g.shellDirIdx a) (g.shellDirIdx b) = true →
      (∀ cp ∈ si, cp.1 ≠ a → g.isLiveShellIdx cp.1 = true → cp.2 ≠ pa) →
      (∀ cp ∈ si, cp.1 ≠ b → g.isLiveShellIdx cp.1 = true → cp.2 ≠ pb) →
      (∀ cp ∈ si, cp.1 ≠ a → cp.1 ≠ b → g.isLiveShellIdx cp.1 = true →
        ¬(pa = g.shellPosIdx cp.1 ∧
            oppositeDirs (g.shellDirIdx cp.1) (g.shellDirIdx a) = true) ∧
        ¬(pb = g.shellPosIdx cp.1 ∧
            oppositeDirs (g.shellDirIdx cp.1) (g.shellDirIdx b) = true) ∧
        ¬(cp.2 = g.shellPosIdx a ∧
            oppositeDirs (g.shellDirIdx a) (g.shellDirIdx cp.1) = true) ∧
        ¬(cp.2 = g.shellPosIdx b ∧
            oppositeDirs (g.shellDirIdx b) (g.shellDirIdx cp.1) = true)) →
      (resolveShellShellCollisions g si).isDeadShellIdx a = true ∧
      (resolveShellShellCollisions g si).isDeadShellIdx b = true) := by
  constructor
  · intro i pi0 j pj hmi hmj hij hpp hli hlj
    have hany_i : (si.any fun jp =>
        jp.1 ≠ i && g.isLiveShellIdx jp.1 && decide (jp.2 = pi0)) = true := by
      rw [List.any_eq_true]
      have hji : j ≠ i := Ne.symm hij
      exact ⟨(j, pj), hmj, by simp [hji, hlj, hpp.symm]⟩
    have hany_j : (si.any fun jp =>
        jp.1 ≠ j && g.isLiveShellIdx jp.1 && decide (jp.2 = pj)) = true := by
      rw [List.any_eq_true]
      exact ⟨(i, pi0), hmi, by simp [hij, hli, hpp]⟩
    unfold resolveShellShellCollisions
    constructor
    · exact phase2_dead_mono si i _ _
        (phase1_kills g si si g i pi0 hmi (isShellIdx_of_live hli) hli hany_i)
    · exact phase2_dead_mono si j _ _
        (phase1_kills g si si g j pj hmj (isShellIdx_of_live hlj) hlj hany_j)
  · intro a pa b pb hmema hmemb hab hla hlb hpb hopp H1 H2 H3
    have hsafe_a : ∀ px, (a, px) ∈ si →
        ¬(g.isLiveShellIdx a = true ∧
          (si.any fun jp =>
            jp.1 ≠ a && g.isLiveShellIdx jp.1 && decide (jp.2 = px)) = true) := by
      intro px hm hcc
      have hpx : px = pa := keys_nodup_eq hnd hm hmema
      obtain ⟨cp, hcp, hcond⟩ := List.any_eq_true.mp hcc.2
      simp only [Bool.and_eq_true, decide_eq_true_eq, ne_eq, Bool.not_eq_true] at hcond
      exact H1 cp hcp (by simpa using hcond.1.1) hcond.1.2 (hpx ▸ hcond.2)
    have hsafe_b : ∀ px, (b, px) ∈ si →
        ¬(g.isLiveShellIdx b = true ∧
          (si.any fun jp =>
            jp.1 ≠ b && g.isLiveShellIdx jp.1 && decide (jp.2 = px)) = true) := by
      intro px hm hcc
      have hpx : px = pb := keys_nodup_eq hnd hm hmemb
      obtain ⟨cp, hcp, hcond⟩ := List.any_eq_true.mp hcc.2
      simp only [Bool.and_eq_true, decide_eq_true_eq, ne_eq, Bool.not_eq_true] at hcond
      exact H2 cp hcp (by simpa using hcond.1.1) hcond.1.2 (hpx ▸ hcond.2)
    have hla1 : (shellShellPhase1 g g si si).isLiveShellIdx a = true := by
      rw [phase1_preserve g si a si g hsafe_a]
      exact hla
    have hlb1 : (shellShellPhase1 g g si si).isLiveShellIdx b = true := by
      rw [phase1_preserve g si b si g hsafe_b]
      exact hlb
    unfold resolveShellShellCollisions
    exact phase2_pair si g a b pa pb hnd hab hmema hmemb hpb hopp
      (fun c pc hm hca hcb hlc => H3 (c, pc) hm hca hcb hlc)
      (si.map Prod.fst) (shellShellPhase1 g g si si)
      (List.mem_map.mpr ⟨(a, pa), hmema, rfl⟩)
      (fun k hk => by
        obtain ⟨cp, hcp, he⟩ := List.mem_map.mp hk
        exact ⟨cp.2, he ▸ hcp⟩)
      (fun n => (phase1_static g si n si g).1)
      (fun n => (phase1_static g si n si g).2.1)
      (fun n => (phase1_static g si n si g).2.2)
      (fun c hc => phase1_live_back g si c si g hc)
      hla1 hlb1

/-- Counterexample to C2 as stated: shells 0 and 2 are live, adjacent and
exactly opposite, with shell 0's intended position equal to shell 2's
current position, a pass-through configuration the claim says destroys
both; yet the resolver leaves shell 2 alive, because shell 0 is consumed by
the coincident-intended rule against shell 1 before the head-on pass can
see the pair. -/
theorem shell_shell_counterexample :
    c2Game.isLiveShellIdx 0 = true ∧ c2Game.isLiveShellIdx 2 = true ∧
    (0, (⟨1, 0⟩ : Position)) ∈ c2Si ∧ (2, (⟨0, 0⟩ : Position)) ∈ c2Si ∧
    c2Game.shellPosIdx 2 = ⟨1, 0⟩ ∧
    oppositeDirs (c2Game.shellDirIdx 0) (c2Game.shellDirIdx 2) = true ∧
    (resolveShellShellCollisions c2Game c2Si).isLiveShellIdx 2 = true := by
  decide

/-- Witness for C2 at the adjacent head-on pair: both destroyed. -/
theorem shell_shell_spec_witness :
    (resolveShellShellCollisions c2GameW c2SiW).isDeadShellIdx 0 = true ∧
    (resolveShellShellCollisions c2GameW c2SiW).isDeadShellIdx 1 = true :=
  (shell_shell_spec c2GameW c2SiW (by decide)).2 0 ⟨1, 0⟩ 1 ⟨0, 0⟩
    (by decide) (by decide) (by decide) (by decide) (by decide) (by decide)
    (by decide) (by decide) (by decide) (by decide)

/-- Zero-hop reachability is equality. -/
theorem reachIn_zero {board : Nat → Nat → Char} {w h : Nat} {s t : Position}
    (hr : ReachIn board w h s t 0) : s = t := by
  cases hr
  rfl

/-- A reachability witness can be extended by one step at its end. -/
theorem reachIn_snoc {board : Nat → Nat → Char} {w h : Nat} :
    ∀ {n : Nat} {s u : Position}, ReachIn board w h s u n →
      ∀ d : Direction, bfsBlocked board (bfsNeighbor w h u d) = false →
      ReachIn board w h s (bfsNeighbor w h u d) (n + 1) := by
  intro n
  induction n with
  | zero =>
    intro s u hr d hfree
    rw [reachIn_zero hr]
    exact .step _ _ d 0 hfree (.refl _)
  | succ k ih =>
    intro s u hr d hfree
    cases hr with
    | step p r d0 n hfree0 htail =>
      exact .step _ _ d0 _ hfree0 (ih htail d hfree)

/-- A positive-hop reachability witness decomposes at its end. -/
theorem reachIn_unsnoc {board : Nat → Nat → Char} {w h : Nat} :
    ∀ {n : Nat} {s t : Position}, ReachIn board w h s t (n + 1) →
      ∃ (u : Position) (d : Direction), ReachIn board w h s u n ∧
        t = bfsNeighbor w h u d ∧ bfsBlocked board t = false := by
  intro n
  induction n with
  | zero =>
    intro s t hr
    cases hr with
    | step p r d n0 hfree htail =>
      rw [← reachIn_zero htail]
      exact ⟨s, d, .refl _, rfl, hfree⟩
  | succ k ih =>
    intro s t hr
    cases hr with
    | step p r d n0 hfree htail =>
      obtain ⟨u, d1, h1, h2, h3⟩ := ih htail
      exact ⟨u, d1, .step _ _ d _ hfree h1, h2, h3⟩

/-- Reachability has a minimum hop count. -/
theorem reachIn_exists_min {board : Nat → Nat → Char} {w h : Nat}
    {s t : Position} (hr : ∃ n, ReachIn board w h s t n) :
    ∃ n, IsShortestLen board w h s t n := by
  classical
  exact ⟨Nat.find hr, Nat.find_spec hr, fun m hm => Nat.find_min' hr hm⟩

/-- Minimum hop counts are unique. -/
theorem isShortestLen_unique {board : Nat → Nat → Char} {w h : Nat}
    {s t : Position} {n m : Nat}
    (h1 : IsShortestLen board w h s t n) (h2 : IsShortestLen board w h s t m) :
    n = m :=
  Nat.le_antisymm (h1.2 m h2.1) (h2.2 n h1.1)

/-- The start has minimum hop count zero to itself. -/
theorem isShortestLen_refl (board : Nat → Nat → Char) (w h : Nat)
    (p : Position) : IsShortestLen board w h p p 0 :=
  ⟨.refl p, fun m _ => Nat.zero_le m⟩

/-- A last stop of a shortest route is itself at minimum distance one less. -/
theorem isShortestLen_unsnoc {board : Nat → Nat → Char} {w h : Nat}
    {s t : Position} {n : Nat} (hm : IsShortestLen board w h s t (n + 1)) :
    ∃ (u : Position) (d : Direction), IsShortestLen board w h s u n ∧
      t = bfsNeighbor w h u d ∧ bfsBlocked board t = false := by
  obtain ⟨u, d, h1, h2, h3⟩ := reachIn_unsnoc hm.1
  refine ⟨u, d, ⟨h1, ?_⟩, h2, h3⟩
  intro m hmu
  by_contra hlt
  push_neg at hlt
  have : ReachIn board w h s t (m + 1) := h2 ▸ reachIn_snoc hmu d (h2 ▸ h3)
  have := hm.2 _ this
  omega

/-- Wrapped neighbors stay inside the grid. -/
theorem bfsNeighbor_inBounds {w h : Nat} (hw : 0 < w) (hh : 0 < h)
    (p : Position) (d : Direction) : inBounds w h (bfsNeighbor w h p d) := by
  have hx : (bfsNeighbor w h p d).x =
      ((p.add (getMovementOffset d 1)).x + (w : Int)) % (w : Int) := rfl
  have hy : (bfsNeighbor w h p d).y =
      ((p.add (getMovementOffset d 1)).y + (h : Int)) % (h : Int) := rfl
  unfold inBounds
  rw [hx, hy]
  refine ⟨?_, ?_, ?_, ?_⟩
  · exact Int.emod_nonneg _ (by exact_mod_cast hw.ne.symm)
  · exact Int.emod_lt_of_pos _ (by exact_mod_cast hw)
  · exact Int.emod_nonneg _ (by exact_mod_cast hh.ne.symm)
  · exact Int.emod_lt_of_pos _ (by exact_mod_cast hh)

/-- Every direction occurs in the BFS direction list. -/
theorem mem_bfsDirList (d : Direction) : d ∈ bfsDirList := by
  cases d <;> simp [bfsDirList]

/-- A duplicate-free list of naturals below a bound is no longer than the
bound. -/
theorem nodup_bounded_length (l : List Nat) (hnd : l.Nodup) (n : Nat)
    (hb : ∀ x ∈ l, x < n) : l.length ≤ n := by
  classical
  have hsub : l.toFinset ⊆ Finset.range n := by
    intro x hx
    exact Finset.mem_range.mpr (hb x (List.mem_toFinset.mp hx))
  calc l.length = l.toFinset.card := (List.toFinset_card_of_nodup hnd).symm
    _ ≤ (Finset.range n).card := Finset.card_le_card hsub
    _ = n := Finset.card_range n

/-- The encoding is injective on in-bounds cells. -/
theorem cellCode_inj {w h : Nat} {p q : Position}
    (hp : inBounds w h p) (hq : inBounds w h q)
    (he : cellCode w p = cellCode w q) : p = q := by
  obtain ⟨hp1, hp2, hp3, hp4⟩ := hp
  obtain ⟨hq1, hq2, hq3, hq4⟩ := hq
  have hpx : p.x.toNat < w := by omega
  have hqx : q.x.toNat < w := by omega
  unfold cellCode at he
  have hx : p.x.toNat = q.x.toNat := by
    have h1 : (p.x.toNat + p.y.toNat * w) % w = p.x.toNat := by
      rw [Nat.add_mul_mod_self_right]
      exact Nat.mod_eq_of_lt hpx
    have h2 : (q.x.toNat + q.y.toNat * w) % w = q.x.toNat := by
      rw [Nat.add_mul_mod_self_right]
      exact Nat.mod_eq_of_lt hqx
    rw [← h1, ← h2, he]
  have hy : p.y.toNat = q.y.toNat := by
    have hw : 0 < w := by omega
    have h1 : (p.x.toNat + p.y.toNat * w) / w = p.y.toNat := by
      rw [Nat.add_mul_div_right _ _ hw, Nat.div_eq_of_lt hpx, Nat.zero_add]
    have h2 : (q.x.toNat + q.y.toNat * w) / w = q.y.toNat := by
      rw [Nat.add_mul_div_right _ _ hw, Nat.div_eq_of_lt hqx, Nat.zero_add]
    rw [← h1, ← h2, he]
  have hpx2 : p.x = p.x.toNat := (Int.toNat_of_nonneg hp1).symm
  have hqx2 : q.x = q.x.toNat := (Int.toNat_of_nonneg hq1).symm
  have hpy2 : p.y = p.y.toNat := (Int.toNat_of_nonneg hp3).symm
  have hqy2 : q.y = q.y.toNat := (Int.toNat_of_nonneg hq3).symm
  cases p
  cases q
  simp only [Position.mk.injEq]
  simp only at hpx2 hqx2 hpy2 hqy2 hx hy
  exact ⟨by rw [hpx2, hqx2, hx], by rw [hpy2, hqy2, hy]⟩

/-- The encoding of an in-bounds cell is below the grid size. -/
theorem cellCode_lt {w h : Nat} {p : Position} (hp : inBounds w h p) :
    cellCode w p < w * h := by
  obtain ⟨hp1, hp2, hp3, hp4⟩ := hp
  have hx : p.x.toNat < w := by omega
  have hy : p.y.toNat < h := by omega
  unfold cellCode
  calc p.x.toNat + p.y.toNat * w < w + p.y.toNat * w := by omega
    _ = (p.y.toNat + 1) * w := by ring
    _ ≤ h * w := Nat.mul_le_mul_right w hy
    _ = w * h := Nat.mul_comm h w

/-- Looking up a fresh key reads the new entry. -/
theorem cfLookup_cons_self (cf : List (Position × Position)) (x y : Position) :
    cfLookup ((x, y) :: cf) x = some y := by
  simp [cfLookup, List.find?_cons]

/-- Looking up any other key skips the new entry. -/
theorem cfLookup_cons_ne (cf : List (Position × Position)) (x y p : Position)
    (hne : p ≠ x) : cfLookup ((x, y) :: cf) p = cfLookup cf p := by
  have hd : (decide ((x, y).1 = p)) = false := by
    simp
    exact fun he => hne he.symm
  simp [cfLookup, List.find?_cons, hd]

/-- A key that is absent looks up to none. -/
theorem cfLookup_eq_none (cf : List (Position × Position)) (p : Position)
    (hp : ∀ kv ∈ cf, kv.1 ≠ p) : cfLookup cf p = none := by
  unfold cfLookup
  rw [List.find?_eq_none.mpr]
  · rfl
  · intro kv hkv
    simp [hp kv hkv]

/-- A successful lookup exposes a matching entry of the map. -/
theorem cfLookup_mem {cf : List (Position × Position)} {p q : Position}
    (hl : cfLookup cf p = some q) : (p, q) ∈ cf := by
  unfold cfLookup at hl
  cases hfind : cf.find? (fun kv => decide (kv.1 = p)) with
  | none => rw [hfind] at hl; exact absurd hl (by simp)
  | some kv =>
    rw [hfind] at hl
    have hkv2 : kv.2 = q := by simpa using hl
    have hkey : kv.1 = p := by
      have := List.find?_some hfind
      simpa using this
    have hmem := List.mem_of_find?_eq_some hfind
    have : kv = (p, q) := by
      cases kv
      simp only at hkv2 hkey
      rw [hkv2, hkey]
    exact this ▸ hmem

/-- A chain survives adding an entry for a key that was absent. -/
theorem chain_cons {cf : List (Position × Position)} {start : Position}
    {x y : Position} (hx : cfLookup cf x = none) :
    ∀ {p : Position} {n : Nat}, Chain cf start p n →
      Chain ((x, y) :: cf) start p n := by
  intro p n hc
  induction hc with
  | base => exact .base
  | step p q n hl ht ih =>
    have hpx : p ≠ x := by
      intro he
      rw [he, hx] at hl
      exact absurd hl (by simp)
    exact .step p q n (by rw [cfLookup_cons_ne cf x y p hpx]; exact hl) ih

/-- The reconstruction walk follows a parent chain, producing exactly the
chain cells in order, the goal last. -/
theorem reconLoop_of_chain {cf : List (Position × Position)} {start : Position}
    (hs : ∀ kv ∈ cf, kv.1 ≠ start) :
    ∀ {p : Position} {n : Nat}, Chain cf start p n →
      ∀ (acc : List Position) (fuel : Nat), n < fuel →
        ∃ l : List Position, reconLoop cf start fuel p acc = l ++ acc ∧
          l.length = n := by
  intro p n hc
  induction hc with
  | base =>
    intro acc fuel hf
    obtain ⟨f, rfl⟩ : ∃ f, fuel = f + 1 := ⟨fuel - 1, by omega⟩
    exact ⟨[], by simp [reconLoop], rfl⟩
  | step p q n hl ht ih =>
    intro acc fuel hf
    obtain ⟨f, rfl⟩ : ∃ f, fuel = f + 1 := ⟨fuel - 1, by omega⟩
    have hps : p ≠ start := hs (p, q) (cfLookup_mem hl)
    obtain ⟨l, hlp, hlen⟩ := ih (p :: acc) f (by omega)
    refine ⟨l ++ [p], ?_, by simp [hlen]⟩
    simp only [reconLoop, if_neg hps, hl]
    rw [hlp]
    simp

/-- A duplicate-free list of in-bounds cells is no longer than the grid. -/
theorem visited_length_le {w h : Nat} (l : List Position) (hnd : l.Nodup)
    (hb : ∀ p ∈ l, inBounds w h p) : l.length ≤ w * h := by
  have hmap : (l.map (cellCode w)).Nodup := by
    refine List.Nodup.map_on ?_ hnd
    intro p hp q hq he
    exact cellCode_inj (hb p hp) (hb q hq) he
  have hlen : (l.map (cellCode w)).length = l.length := List.length_map _ _
  rw [← hlen]
  refine nodup_bounded_length _ hmap _ ?_
  intro x hx
  obtain ⟨p, hp, rfl⟩ := List.mem_map.mp hx
  exact cellCode_lt (hb p hp)

/-- bfsExpand is the fold of the factored step over the direction list. -/
theorem bfsExpand_eq_foldl (board : Nat → Nat → Char) (w h : Nat)
    (cur : Position) (st : BfsSt) :
    bfsExpand board w h cur st = bfsDirList.foldl (bfsStepFn board w h cur) st :=
  rfl

/-- Each neighbor expansion pushes to the queue and to the visited set in
lockstep. -/
theorem bfsExpand_fold_count (board : Nat → Nat → Char) (w h : Nat)
    (cur : Position) :
    ∀ (ds : List Direction) (st1 : BfsSt), ∃ k,
      (ds.foldl (bfsStepFn board w h cur) st1).queue.length =
        st1.queue.length + k ∧
      (ds.foldl (bfsStepFn board w h cur) st1).visited.length =
        st1.visited.length + k := by
  intro ds
  induction ds with
  | nil => exact fun st1 => ⟨0, rfl, rfl⟩
  | cons d ds ih =>
    intro st1
    rw [List.foldl_cons]
    by_cases hc : bfsNeighbor w h cur d ∈ st1.visited ∨
        bfsBlocked board (bfsNeighbor w h cur d) = true
    · have he : bfsStepFn board w h cur st1 d = st1 := by
        simp only [bfsStepFn]
        rw [if_pos hc]
      rw [he]
      exact ih st1
    · have he : bfsStepFn board w h cur st1 d =
          { queue := st1.queue ++ [bfsNeighbor w h cur d],
            visited := st1.visited ++ [bfsNeighbor w h cur d],
            cf := (bfsNeighbor w h cur d, cur) :: st1.cf } := by
        simp only [bfsStepFn]
        rw [if_neg hc]
      obtain ⟨k, h1, h2⟩ := ih (bfsStepFn board w h cur st1 d)
      rw [he] at h1 h2
      rw [he]
      refine ⟨k + 1, ?_, ?_⟩
      · rw [h1]
        simp only [List.length_append, List.length_cons, List.length_nil]
        omega
      · rw [h2]
        simp only [List.length_append, List.length_cons, List.length_nil]
        omega

/-- One neighbor expansion preserves the intermediate invariant, only grows
the visited set, and ends with every free neighbor of the dequeued cell
visited. -/
theorem bfsExpand_fold_inv (board : Nat → Nat → Char) (w h : Nat)
    (start goal cur : Position) (dc : Nat) (preVis : List Position)
    (hw : 0 < w) (hh : 0 < h)
    (hcur_min : IsShortestLen board w h start cur dc)
    (hcur_pre : cur ∈ preVis)
    (hdisc : ∀ (p : Position) (m : Nat), m ≤ dc →
      IsShortestLen board w h start p m → p ∈ preVis) :
    ∀ (ds : List Direction) (st1 : BfsSt),
      ExpInv board w h start goal cur dc preVis st1 →
      ExpInv board w h start goal cur dc preVis
          (ds.foldl (bfsStepFn board w h cur) st1) ∧
      (∀ p ∈ st1.visited, p ∈ (ds.foldl (bfsStepFn board w h cur) st1).visited) ∧
      (∀ d ∈ ds, bfsBlocked board (bfsNeighbor w h cur d) = false →
        bfsNeighbor w h cur d ∈
          (ds.foldl (bfsStepFn board w h cur) st1).visited) := by
  intro ds
  induction ds with
  | nil =>
    intro st1 h1
    exact ⟨h1, fun p hp => hp, by simp⟩
  | cons d ds ih =>
    intro st1 h1
    rw [List.foldl_cons]
    have hstep : ExpInv board w h start goal cur dc preVis
        (bfsStepFn board w h cur st1 d) ∧
        (∀ p ∈ st1.visited, p ∈ (bfsStepFn board w h cur st1 d).visited) ∧
        (bfsBlocked board (bfsNeighbor w h cur d) = false →
          bfsNeighbor w h cur d ∈ (bfsStepFn board w h cur st1 d).visited) := by
      by_cases hc : bfsNeighbor w h cur d ∈ st1.visited ∨
          bfsBlocked board (bfsNeighbor w h cur d) = true
      · have he : bfsStepFn board w h cur st1 d = st1 := by
          simp only [bfsStepFn]
          rw [if_pos hc]
        rw [he]
        refine ⟨h1, fun p hp => hp, ?_⟩
        intro hfree
        cases hc with
        | inl hv => exact hv
        | inr hb => rw [hfree] at hb; exact absurd hb (by simp)
      · have hc1 : bfsNeighbor w h cur d ∉ st1.visited :=
          fun hm => hc (Or.inl hm)
        have hfree : bfsBlocked board (bfsNeighbor w h cur d) = false := by
          cases hb2 : bfsBlocked board (bfsNeighbor w h cur d)
          · rfl
          · exact absurd (Or.inr hb2) hc
        have he : bfsStepFn board w h cur st1 d =
            { queue := st1.queue ++ [bfsNeighbor w h cur d],
              visited := st1.visited ++ [bfsNeighbor w h cur d],
              cf := (bfsNeighbor w h cur d, cur) :: st1.cf } := by
          simp only [bfsStepFn]
          rw [if_neg hc]
        rw [he]
        have hcur_vis : cur ∈ st1.visited := h1.pre_sub cur hcur_pre
        have hnone : cfLookup st1.cf (bfsNeighbor w h cur d) = none :=
          cfLookup_eq_none _ _ (fun kv hkv he2 =>
            absurd (he2 ▸ (h1.cf_keys kv hkv).1) hc1)
        have hnmin : IsShortestLen board w h start (bfsNeighbor w h cur d)
            (dc + 1) := by
          constructor
          · exact reachIn_snoc hcur_min.1 d hfree
          · intro m hm
            by_contra hlt
            push_neg at hlt
            obtain ⟨m2, hm2⟩ := reachIn_exists_min ⟨m, hm⟩
            have hm2le : m2 ≤ m := hm2.2 m hm
            have : bfsNeighbor w h cur d ∈ preVis :=
              hdisc _ m2 (by omega) hm2
            exact hc1 (h1.pre_sub _ this)
        have hchcur : Chain st1.cf start cur dc := by
          obtain ⟨n, ch, mind, len⟩ := h1.vis_reach cur hcur_vis
          rwa [isShortestLen_unique mind hcur_min] at ch
        have hdc_len : dc ≤ st1.cf.length := by
          obtain ⟨n, ch, mind, len⟩ := h1.vis_reach cur hcur_vis
          have : n = dc := isShortestLen_unique mind hcur_min
          omega
        have hns : bfsNeighbor w h cur d ≠ start :=
          fun he2 => hc1 (he2 ▸ h1.start_vis)
        have hnq : bfsNeighbor w h cur d ∉ st1.queue :=
          fun hm => hc1 (h1.q_sub _ hm)
        refine ⟨⟨?_, ?_, ?_, ?_, ?_, ?_, ?_, ?_, ?_, ?_⟩, ?_, ?_⟩
        · refine List.Nodup.append h1.vis_nd (List.nodup_singleton _) ?_
          intro a ha hb
          rw [List.mem_singleton] at hb
          exact hc1 (hb ▸ ha)
        · refine List.Nodup.append h1.q_nd (List.nodup_singleton _) ?_
          intro a ha hb
          rw [List.mem_singleton] at hb
          exact hnq (hb ▸ ha)
        · intro p hp
          rcases List.mem_append.mp hp with hl | hr
          · exact List.mem_append_left _ (h1.q_sub p hl)
          · exact List.mem_append_right _ hr
        · exact List.mem_append_left _ h1.start_vis
        · intro p hp
          rcases List.mem_append.mp hp with hl | hr
          · exact h1.vis_inb p hl
          · rw [List.mem_singleton.mp hr]
            exact bfsNeighbor_inBounds hw hh cur d
        · intro p hp
          rcases List.mem_append.mp hp with hl | hr
          · obtain ⟨n, ch, mind, len⟩ := h1.vis_reach p hl
            refine ⟨n, chain_cons hnone ch, mind, ?_⟩
            simp only [List.length_cons]
            omega
          · rw [List.mem_singleton.mp hr]
            refine ⟨dc + 1, ?_, hnmin, ?_⟩
            · exact .step _ cur dc (cfLookup_cons_self _ _ _)
                (chain_cons hnone hchcur)
            · simp only [List.length_cons]
              omega
        · intro kv hkv
          rcases List.mem_cons.mp hkv with hl | hr
          · rw [hl]
            exact ⟨List.mem_append_right _ (List.mem_singleton.mpr rfl), hns⟩
          · obtain ⟨hm, hne⟩ := h1.cf_keys kv hr
            exact ⟨List.mem_append_left _ hm, hne⟩
        · intro u hu hunq
          rcases List.mem_append.mp hu with hl | hr
          · have hunq1 : u ∉ st1.queue :=
              fun hm => hunq (List.mem_append_left _ hm)
            rcases h1.proc u hl hunq1 with hcu | ⟨hg, hcl⟩
            · exact Or.inl hcu
            · exact Or.inr ⟨hg, fun d2 hf2 =>
                List.mem_append_left _ (hcl d2 hf2)⟩
          · exact absurd (List.mem_append_right _ hr) hunq
        · exact fun p hp => List.mem_append_left _ (h1.pre_sub p hp)
        · obtain ⟨qa, qb, hsp, ha, hb⟩ := h1.levels
          refine ⟨qa, qb ++ [bfsNeighbor w h cur d], ?_, ha, ?_⟩
          · rw [hsp, List.append_assoc]
          · intro p hp
            rcases List.mem_append.mp hp with hl | hr
            · exact hb p hl
            · rw [List.mem_singleton.mp hr]
              exact hnmin
        · exact fun p hp => List.mem_append_left _ hp
        · intro _
          exact List.mem_append_right _ (List.mem_singleton.mpr rfl)
    obtain ⟨h2, hsub2, hd2⟩ := hstep
    obtain ⟨h3, hsub3, hd3⟩ := ih _ h2
    refine ⟨h3, ?_, ?_⟩
    · exact fun p hp => hsub3 p (hsub2 p hp)
    · intro d2 hd2m hf2
      rcases List.mem_cons.mp hd2m with hl | hr
      · rw [hl]
        exact hsub3 _ (hd2 (hl ▸ hf2))
      · exact hd3 d2 hr hf2

/-- Completeness of the visited set: when every queued cell lies at level
at least dmin, every cell at minimum distance at most dmin is already
visited. -/
theorem bfs_discovered (board : Nat → Nat → Char) (w h : Nat)
    (start goal : Position) (st : BfsSt)
    (hinv : BfsInv board w h start goal st) (dmin : Nat)
    (hq : ∀ p ∈ st.queue, ∀ k, IsShortestLen board w h start p k → dmin ≤ k) :
    ∀ m, m ≤ dmin → ∀ p, IsShortestLen board w h start p m →
      p ∈ st.visited := by
  intro m
  induction m using Nat.strong_induction_on with
  | _ m ih =>
    intro hm p hp
    match m, hp with
    | 0, hp =>
      rw [← reachIn_zero hp.1]
      exact hinv.start_vis
    | k + 1, hp =>
      obtain ⟨u, d, hu, hpe, hfree⟩ := isShortestLen_unsnoc hp
      have huv : u ∈ st.visited := ih k (by omega) (by omega) u hu
      have hunq : u ∉ st.queue := by
        intro hmem
        have := hq u hmem k hu
        omega
      have := (hinv.processed u huv hunq).2 d (hpe ▸ hfree)
      rw [hpe]
      exact this

/-- One iteration of the frontier loop on a non-goal head preserves the
invariant and strictly decreases the termination measure. -/
theorem bfsStep_inv (board : Nat → Nat → Char) (w h : Nat)
    (start goal : Position) (hw : 0 < w) (hh : 0 < h)
    (st : BfsSt) (cur : Position) (rest : List Position)
    (hq : st.queue = cur :: rest)
    (hinv : BfsInv board w h start goal st) (hgoal : cur ≠ goal) :
    BfsInv board w h start goal
        (bfsExpand board w h cur { st with queue := rest }) ∧
    (bfsExpand board w h cur { st with queue := rest }).queue.length +
        2 * (w * h -
          (bfsExpand board w h cur { st with queue := rest }).visited.length) <
      st.queue.length + 2 * (w * h - st.visited.length) := by
  obtain ⟨dc0, qa, qb, hsp, ha, hb⟩ := hinv.levels
  rw [hq] at hsp
  have hcur_vis : cur ∈ st.visited := hinv.q_sub cur (hq ▸ List.mem_cons_self cur rest)
  -- the level of the dequeued cell, with the facts the expansion needs
  have hkey : ∃ dc : Nat, IsShortestLen board w h start cur dc ∧
      (∀ p ∈ st.queue, ∀ k, IsShortestLen board w h start p k → dc ≤ k) ∧
      (∃ (qa2 qb2 : List Position), rest = qa2 ++ qb2 ∧
        (∀ p ∈ qa2, IsShortestLen board w h start p dc) ∧
        (∀ p ∈ qb2, IsShortestLen board w h start p (dc + 1))) := by
    cases qa with
    | nil =>
      simp only [List.nil_append] at hsp
      refine ⟨dc0 + 1, hb cur (hsp ▸ List.mem_cons_self cur rest), ?_, ?_⟩
      · intro p hp k hk
        rw [hq, hsp] at hp
        have := hb p hp
        rw [isShortestLen_unique hk this]
      · refine ⟨rest, [], by simp, ?_, by simp⟩
        intro p hp
        exact hb p (hsp ▸ List.mem_cons_of_mem cur hp)
    | cons x qa2 =>
      simp only [List.cons_append, List.cons.injEq] at hsp
      obtain ⟨hx, hrest⟩ := hsp
      refine ⟨dc0, hx ▸ ha x (List.mem_cons_self x qa2), ?_, ?_⟩
      · intro p hp k hk
        rw [hq] at hp
        rcases List.mem_cons.mp hp with hl | hr
        · rw [hl, hx] at hk
          rw [isShortestLen_unique hk (ha x (List.mem_cons_self x qa2))]
        · rw [hrest] at hr
          rcases List.mem_append.mp hr with h2 | h2
          · rw [isShortestLen_unique hk
              (ha p (List.mem_cons_of_mem x h2))]
          · have := isShortestLen_unique hk (hb p h2)
            omega
      · refine ⟨qa2, qb, hrest, ?_, hb⟩
        intro p hp
        exact ha p (List.mem_cons_of_mem x hp)
  obtain ⟨dc, hcur_min, hq_min, qa2, qb2, hrest, ha2, hb2⟩ := hkey
  have hdisc : ∀ (p : Position) (m : Nat), m ≤ dc →
      IsShortestLen board w h start p m → p ∈ st.visited :=
    fun p m hm hp =>
      bfs_discovered board w h start goal st hinv dc hq_min m hm p hp
  have hmid : ExpInv board w h start goal cur dc st.visited
      { st with queue := rest } := by
    refine ⟨hinv.vis_nd, ?_, ?_, hinv.start_vis, hinv.vis_inb,
      hinv.vis_reach, hinv.cf_keys, ?_, fun p hp => hp, qa2, qb2, hrest,
      ha2, hb2⟩
    · have := hinv.q_nd
      rw [hq] at this
      exact (List.nodup_cons.mp this).2
    · intro p hp
      exact hinv.q_sub p (hq ▸ List.mem_cons_of_mem cur hp)
    · intro u hu hunq
      by_cases hcq : u ∈ st.queue
      · rw [hq] at hcq
        rcases List.mem_cons.mp hcq with hl | hr
        · exact Or.inl hl
        · exact absurd hr hunq
      · exact Or.inr (hinv.processed u hu hcq)
  obtain ⟨hE, hgrow, hnbrs⟩ := bfsExpand_fold_inv board w h start goal cur dc
    st.visited hw hh hcur_min hcur_vis hdisc bfsDirList
    { st with queue := rest } hmid
  rw [← bfsExpand_eq_foldl] at hE hgrow hnbrs
  constructor
  · refine ⟨hE.vis_nd, hE.q_nd, hE.q_sub, hE.start_vis, hE.vis_inb,
      hE.vis_reach, hE.cf_keys, ?_, ?_⟩
    · intro u hu hunq
      rcases hE.proc u hu hunq with hcu | ⟨hg, hcl⟩
      · subst hcu
        refine ⟨hgoal, ?_⟩
        intro d hfree
        exact hnbrs d (mem_bfsDirList d) hfree
      · exact ⟨hg, hcl⟩
    · obtain ⟨qa3, qb3, hsp3, ha3, hb3⟩ := hE.levels
      exact ⟨dc, qa3, qb3, hsp3, ha3, hb3⟩
  · obtain ⟨k, hcq, hcv⟩ := bfsExpand_fold_count board w h cur bfsDirList
      { st with queue := rest }
    rw [← bfsExpand_eq_foldl] at hcq hcv
    have hvle : (bfsExpand board w h cur
        { st with queue := rest }).visited.length ≤ w * h :=
      visited_length_le _ hE.vis_nd hE.vis_inb
    have hql : st.queue.length = rest.length + 1 := by
      rw [hq]
      simp
    simp only at hcq hcv
    omega

/-- The starting state of findShortestPathBFS satisfies the invariant. -/
theorem bfsInit_inv (board : Nat → Nat → Char) (w h : Nat)
    (start goal : Position) (hs : inBounds w h start) :
    BfsInv board w h start goal
      { queue := [start], visited := [start], cf := [] } := by
  refine ⟨List.nodup_singleton _, List.nodup_singleton _, fun p hp => hp,
    List.mem_singleton.mpr rfl, ?_, ?_, by simp, ?_, 0, [start], [],
    by simp, ?_, by simp⟩
  · intro p hp
    rw [List.mem_singleton.mp hp]
    exact hs
  · intro p hp
    rw [List.mem_singleton.mp hp]
    exact ⟨0, .base, isShortestLen_refl board w h start, Nat.le_refl 0⟩
  · intro u hu hunq
    exact absurd hu hunq
  · intro p hp
    rw [List.mem_singleton.mp hp]
    exact isShortestLen_refl board w h start

/-- Unfolding of the frontier loop on an empty queue. -/
theorem bfsLoop_nil (board : Nat → Nat → Char) (w h : Nat) (goal : Position)
    (fuel : Nat) (st : BfsSt) (hq : st.queue = []) :
    bfsLoop board w h goal (fuel + 1) st = some (false, st.cf) := by
  have he : bfsLoop board w h goal (fuel + 1) st = (match st.queue with
    | [] => some (false, st.cf)
    | cur :: rest =>
      if cur = goal then some (true, st.cf)
      else bfsLoop board w h goal fuel
        (bfsExpand board w h cur { st with queue := rest })) := rfl
  rw [he, hq]

/-- Unfolding of the frontier loop on a non-empty queue. -/
theorem bfsLoop_cons (board : Nat → Nat → Char) (w h : Nat) (goal : Position)
    (fuel : Nat) (st : BfsSt) (cur : Position) (rest : List Position)
    (hq : st.queue = cur :: rest) :
    bfsLoop board w h goal (fuel + 1) st =
      if cur = goal then some (true, st.cf)
      else bfsLoop board w h goal fuel
        (bfsExpand board w h cur { st with queue := rest }) := by
  have he : bfsLoop board w h goal (fuel + 1) st = (match st.queue with
    | [] => some (false, st.cf)
    | cur :: rest =>
      if cur = goal then some (true, st.cf)
      else bfsLoop board w h goal fuel
        (bfsExpand board w h cur { st with queue := rest })) := rfl
  rw [he, hq]

/-- Soundness of the frontier loop: a successful run found the goal at its
true minimum distance, with a parent chain of that length in the returned
map, whose keys all differ from the start. -/
theorem bfsLoop_sound (board : Nat → Nat → Char) (w h : Nat)
    (start goal : Position) (hw : 0 < w) (hh : 0 < h) :
    ∀ (fuel : Nat) (st : BfsSt) (cf : List (Position × Position)),
      BfsInv board w h start goal st →
      bfsLoop board w h goal fuel st = some (true, cf) →
      ∃ n, Chain cf start goal n ∧ IsShortestLen board w h start goal n ∧
        n ≤ cf.length ∧ ∀ kv ∈ cf, kv.1 ≠ start := by
  intro fuel
  induction fuel with
  | zero =>
    intro st cf hinv heq
    exact absurd heq (by simp [bfsLoop])
  | succ fuel ih =>
    intro st cf hinv heq
    cases hqe : st.queue with
    | nil =>
      rw [bfsLoop_nil board w h goal fuel st hqe] at heq
      exact absurd heq (by simp)
    | cons cur rest =>
      rw [bfsLoop_cons board w h goal fuel st cur rest hqe] at heq
      by_cases hcg : cur = goal
      · rw [if_pos hcg] at heq
        have hcf : st.cf = cf := by
          have := Option.some.inj heq
          exact congrArg Prod.snd this
        have hgv : goal ∈ st.visited :=
          hinv.q_sub goal (hqe ▸ (hcg ▸ List.mem_cons_self cur rest))
        obtain ⟨n, ch, mind, len⟩ := hinv.vis_reach goal hgv
        rw [hcf] at ch len
        exact ⟨n, ch, mind, len, fun kv hkv =>
          (hinv.cf_keys kv (hcf ▸ hkv)).2⟩
      · rw [if_neg hcg] at heq
        obtain ⟨hinv2, _⟩ := bfsStep_inv board w h start goal hw hh st cur
          rest hqe hinv hcg
        exact ih _ cf hinv2 heq

/-- Completeness of the frontier loop: with enough fuel, a reachable goal
is found. -/
theorem bfsLoop_complete (board : Nat → Nat → Char) (w h : Nat)
    (start goal : Position) (hw : 0 < w) (hh : 0 < h) :
    ∀ (fuel : Nat) (st : BfsSt),
      BfsInv board w h start goal st →
      (∃ n, ReachIn board w h start goal n) →
      st.queue.length + 2 * (w * h - st.visited.length) < fuel →
      ∃ cf, bfsLoop board w h goal fuel st = some (true, cf) := by
  intro fuel
  induction fuel with
  | zero =>
    intro st hinv hreach hfuel
    omega
  | succ fuel ih =>
    intro st hinv hreach hfuel
    cases hqe : st.queue with
    | nil =>
      exfalso
      obtain ⟨m, hm⟩ := reachIn_exists_min hreach
      have hgv : goal ∈ st.visited := by
        refine bfs_discovered board w h start goal st hinv m ?_ m
          (Nat.le_refl m) goal hm
        intro p hp
        rw [hqe] at hp
        exact absurd hp (List.not_mem_nil p)
      have hgq : goal ∉ st.queue := by
        rw [hqe]
        exact List.not_mem_nil goal
      exact (hinv.processed goal hgv hgq).1 rfl
    | cons cur rest =>
      by_cases hcg : cur = goal
      · refine ⟨st.cf, ?_⟩
        rw [bfsLoop_cons board w h goal fuel st cur rest hqe, if_pos hcg]
      · obtain ⟨hinv2, hdec⟩ := bfsStep_inv board w h start goal hw hh st
          cur rest hqe hinv hcg
        obtain ⟨cf, hcf⟩ := ih _ hinv2 hreach (by omega)
        refine ⟨cf, ?_⟩
        rw [bfsLoop_cons board w h goal fuel st cur rest hqe, if_neg hcg]
        exact hcf

/-- C7: corrected.  For every board with positive dimensions and in-bounds
start cell, findShortestPathBFS over the 8-connected wraparound grid
excluding obstacle and trap cells returns a non-empty path if and only if
the goal is reachable AND distinct from the start (when start = goal the
goal is trivially reachable, yet the function returns the empty path); and
whenever the goal is reachable, the length of the returned path equals the
true minimum hop count from start to goal. -/
theorem findShortestPathBFS_spec (board : Nat → Nat → Char) (w h : Nat)
    (start goal : Position) (hw : 0 < w) (hh : 0 < h)
    (hs : inBounds w h start) :
    (findShortestPathBFS board w h start goal ≠ [] ↔
      (∃ n, ReachIn board w h start goal n) ∧ start ≠ goal) ∧
    ((∃ n, ReachIn board w h start goal n) →
      IsShortestLen board w h start goal
        (findShortestPathBFS board w h start goal).length) := by
  have hinv0 := bfsInit_inv board w h start goal hs
  have hwh : 1 ≤ w * h := Nat.mul_pos hw hh
  have hdef : findShortestPathBFS board w h start goal =
      (match bfsLoop board w h goal (2 * w * h + 1)
          { queue := [start], visited := [start], cf := [] } with
        | some (true, cf) => reconstructPath start goal cf
        | _ => []) := rfl
  cases hloop : bfsLoop board w h goal (2 * w * h + 1)
      { queue := [start], visited := [start], cf := [] } with
  | none =>
    have hpath : findShortestPathBFS board w h start goal = [] := by
      rw [hdef, hloop]
    have hnr : ¬ ∃ n, ReachIn board w h start goal n := by
      intro hreach
      obtain ⟨cf, hcf⟩ := bfsLoop_complete board w h start goal hw hh
        (2 * w * h + 1) _ hinv0 hreach
        (by
          simp only [List.length_cons, List.length_nil]
          have h2 : 2 * w * h = 2 * (w * h) := by ring
          rw [h2]
          omega)
      rw [hloop] at hcf
      exact absurd hcf (by simp)
    refine ⟨⟨fun hne => absurd hpath hne, fun hc => absurd hc.1 hnr⟩,
      fun hr => absurd hr hnr⟩
  | some pr =>
    obtain ⟨b, cf⟩ := pr
    cases b with
    | false =>
      have hpath : findShortestPathBFS board w h start goal = [] := by
        rw [hdef, hloop]
      have hnr : ¬ ∃ n, ReachIn board w h start goal n := by
        intro hreach
        obtain ⟨cf2, hcf⟩ := bfsLoop_complete board w h start goal hw hh
          (2 * w * h + 1) _ hinv0 hreach
          (by
          simp only [List.length_cons, List.length_nil]
          have h2 : 2 * w * h = 2 * (w * h) := by ring
          rw [h2]
          omega)
        rw [hloop] at hcf
        exact absurd hcf (by simp)
      refine ⟨⟨fun hne => absurd hpath hne, fun hc => absurd hc.1 hnr⟩,
        fun hr => absurd hr hnr⟩
    | true =>
      obtain ⟨n, ch, mind, hlen, hkeys⟩ :=
        bfsLoop_sound board w h start goal hw hh _ _ _ hinv0 hloop
      have hreach : ∃ m, ReachIn board w h start goal m := ⟨n, mind.1⟩
      by_cases hsg : start = goal
      · subst hsg
        have hpath : findShortestPathBFS board w h start start = [] := by
          rw [hdef, hloop]
          show reconstructPath start start cf = []
          unfold reconstructPath
          have hcnd2 : ¬((cfLookup cf start).isNone = true ∧ start ≠ start) :=
            fun hc => hc.2 rfl
          rw [if_neg hcnd2]
          simp [reconLoop]
        refine ⟨⟨fun hne => absurd hpath hne, fun hc => absurd rfl hc.2⟩,
          fun _ => ?_⟩
        rw [hpath]
        simpa using isShortestLen_refl board w h start
      · have hn0 : n ≠ 0 := by
          intro he
          rw [he] at mind
          exact hsg (reachIn_zero mind.1)
        obtain ⟨n1, rfl⟩ : ∃ n1, n = n1 + 1 := ⟨n - 1, by omega⟩
        have hlook : ∃ q, cfLookup cf goal = some q := by
          cases ch with
          | step _ q _ hl ht => exact ⟨q, hl⟩
        obtain ⟨q, hlook⟩ := hlook
        have hpath : findShortestPathBFS board w h start goal =
            reconLoop cf start (cf.length + 1) goal [] := by
          rw [hdef, hloop]
          show reconstructPath start goal cf = _
          unfold reconstructPath
          have hcnd : ¬((cfLookup cf goal).isNone ∧ start ≠ goal) := by
            rw [hlook]
            simp
          rw [if_neg hcnd]
        obtain ⟨l, hl2, hlen2⟩ := reconLoop_of_chain hkeys ch []
          (cf.length + 1) (by omega)
        have hpl : findShortestPathBFS board w h start goal = l := by
          rw [hpath, hl2, List.append_nil]
        refine ⟨⟨fun _ => ⟨hreach, hsg⟩, fun _ => ?_⟩, fun _ => ?_⟩
        · rw [hpl]
          exact List.length_pos.mp (hlen2 ▸ n1.succ_pos)
        · rw [hpl, hlen2]
          exact mind

/-- C7 counterexample: on a 1-by-1 free board with start = goal the goal is
reachable (in zero hops), yet findShortestPathBFS returns the empty path,
refuting the unconditional non-empty-iff-reachable claim. -/
theorem findShortestPathBFS_counterexample :
    (∃ n, ReachIn c7Board 1 1 ⟨0, 0⟩ ⟨0, 0⟩ n) ∧
    findShortestPathBFS c7Board 1 1 ⟨0, 0⟩ ⟨0, 0⟩ = [] :=
  ⟨⟨0, .refl _⟩, by decide⟩

/-- C7 witness: on the free 3-by-3 board the path from (0,0) to the
adjacent (1,1) is non-empty, instantiating the corrected theorem. -/
theorem findShortestPathBFS_spec_witness :
    findShortestPathBFS c7Board 3 3 ⟨0, 0⟩ ⟨1, 1⟩ ≠ [] := by
  refine (findShortestPathBFS_spec c7Board 3 3 ⟨0, 0⟩ ⟨1, 1⟩
    (by decide) (by decide) (by decide)).1.mpr ⟨⟨1, ?_⟩, by decide⟩
  refine ReachIn.step _ _ Direction.DOWN_RIGHT 0 (by decide) ?_
  rw [show bfsNeighbor 3 3 ⟨0, 0⟩ Direction.DOWN_RIGHT = (⟨1, 1⟩ : Position)
    from by decide]
  exact ReachIn.refl _

end TankGame
